import Mathlib

/-!
# go-bitly: the `Links` resource group (`links.go`)

A shallow embedding of `links.go` and of the part of Go's `encoding/json`
decoder that `links.go` relies on, followed by theorems about the six
operations `Expand`, `Info`, `Lookup`, `Shorten`, `Clicks` and `Popular`.

Conventions of the embedding

* A Go call returning `(value, error)` is a pair `value × Option GoError`;
  `none` is the `nil` error.  Both components are kept, because Go hands both
  to the caller.
* `[]Link` is a `List Link`; the `nil` slice and the empty slice are both `[]`.
  Where the decoder writes into a slice that exists already (the field of
  `PopularLinks`), the elements behind its length are kept as well.
* `int` is the 64-bit Go `int`.
* `Client.get` is not part of `links.go`: an operation is a `Prog`, a program
  that may call `get` and continue with whatever `get` answers.  `links.go`
  reads the response only when the error is `nil`, so an answer is an error or
  a response.
* `encoding/json` is modelled on JSON values, not on bytes: `null` leaves a
  `string`, `int` or struct as it is and sets a slice or map to `nil`; a value
  of the wrong type is skipped and the first such error is returned once the
  whole value is decoded; object keys select struct fields by exact name or,
  failing that, up to letter case; keys that select no field are ignored.
  Before anything is decoded the text is scanned for validity; the scan also
  rejects a text whose arrays and objects are nested deeper than 10000.
-/

set_option autoImplicit false
set_option linter.dupNamespace false

namespace Bitly

/-! ## JSON values -/

/-- A JSON number literal: an integer literal (`-?digits`), or a literal with a
fraction or an exponent, kept as its text. -/
inductive JNumber where
  | int (i : Int)
  | real (text : String)

/-- A JSON value as the decoder sees it.  An object is the sequence of its
members in the order of the text, duplicate keys included. -/
inductive JVal where
  | null
  | bool (b : Bool)
  | num (n : JNumber)
  | str (s : String)
  | arr (xs : List JVal)
  | obj (kvs : List (String × JVal))

/-- The limit of the validity scan on the nesting of arrays and objects:
the constant `maxNestingDepth` of `encoding/json`. -/
def maxNestingDepth : Nat := 10000

mutual

/-- The nesting depth of a JSON value: the largest number of arrays and
objects that are open at one point of its text.  A scalar has depth 0, `[]`
and `{}` have depth 1. -/
def JVal.depth : JVal → Nat
  | .arr xs => depthOfElements xs + 1
  | .obj kvs => depthOfMembers kvs + 1
  | _ => 0

/-- The largest nesting depth among the elements of an array. -/
def depthOfElements : List JVal → Nat
  | [] => 0
  | x :: xs => max x.depth (depthOfElements xs)

/-- The largest nesting depth among the values of the members of an object. -/
def depthOfMembers : List (String × JVal) → Nat
  | [] => 0
  | kv :: kvs => max kv.2.depth (depthOfMembers kvs)

end

/-- The bytes of `Response.Data`: either a text that is not JSON (empty input,
truncated or otherwise ill-formed text), or a text that follows the JSON
grammar, given by the value it denotes.  A text of the second kind can still
fail the validity scan of `encoding/json`, by its nesting depth: see
`checkValid`. -/
inductive RawMessage where
  | malformed
  | json (v : JVal)

/-- Errors of `json.Unmarshal`: `*json.SyntaxError` and
`*json.UnmarshalTypeError` (its fields `Value` and `Type`, the latter under the
name `GoType`). -/
inductive JsonError where
  | SyntaxError
  | UnmarshalTypeError (Value : String) (GoType : String)
  deriving DecidableEq, Repr

/-- A Go `error` value: one produced by `encoding/json`, or any other error,
identified by its message. -/
inductive GoError where
  | json (e : JsonError)
  | other (msg : String)
  deriving DecidableEq, Repr

/-- The decoder method `decodeState.saveError`: only the first error is kept. -/
def saveError (saved : Option JsonError) (err : JsonError) : Option JsonError :=
  match saved with
  | some e => some e
  | none => some err

/-! ## The data model of `links.go` -/

/-- Go: `type Link struct` of `links.go`. -/
structure Link where
  Clicks : Int
  ClicksTotal : Int
  ShortURL : String
  LongURL : String
  GlobalHash : String
  UserHash : String
  Hash : String
  NewHash : Int
  Title : String
  URL : String
  AggregateLink : String
  CreatedAt : Int
  CreatedBy : String
  Link : String
  deriving DecidableEq, Repr

/-- The zero value of `Link`. -/
def zeroLink : Link :=
  { Clicks := 0, ClicksTotal := 0, ShortURL := "", LongURL := "", GlobalHash := "",
    UserHash := "", Hash := "", NewHash := 0, Title := "", URL := "",
    AggregateLink := "", CreatedAt := 0, CreatedBy := "", Link := "" }

/-- A Go slice of `Link` as the decoder sees it: the visible elements and the
elements that lie behind the length in the same backing array (`spare`), which
`decodeState.array` decodes into without clearing them. -/
structure LinkSlice where
  elems : List Link
  spare : List Link
  deriving DecidableEq, Repr

/-- The `nil` slice. -/
def nilSlice : LinkSlice := { elems := [], spare := [] }

/-- Go: `type PopularLinks struct`: the field `Link []Link`. -/
structure PopularLinks where
  Link : LinkSlice
  deriving DecidableEq, Repr

/-- The zero value of `PopularLinks`. -/
def zeroPopularLinks : PopularLinks := { Link := nilSlice }

/-- The fields of `Link`, in declaration order. -/
inductive Field where
  | Clicks | ClicksTotal | ShortURL | LongURL | GlobalHash | UserHash | Hash
  | NewHash | Title | URL | AggregateLink | CreatedAt | CreatedBy | Link
  deriving DecidableEq, Repr

/-- The `json:"..."` tag of each field. -/
def Field.name : Field → String
  | .Clicks => "link_clicks"
  | .ClicksTotal => "clicks"
  | .ShortURL => "short_url"
  | .LongURL => "long_url"
  | .GlobalHash => "global_hash"
  | .UserHash => "user_hash"
  | .Hash => "hash"
  | .NewHash => "new_hash"
  | .Title => "title"
  | .URL => "url"
  | .AggregateLink => "aggregate_link"
  | .CreatedAt => "created_at"
  | .CreatedBy => "created_by"
  | .Link => "link"

/-- All fields, in declaration order. -/
def Field.all : List Field :=
  [.Clicks, .ClicksTotal, .ShortURL, .LongURL, .GlobalHash, .UserHash, .Hash,
   .NewHash, .Title, .URL, .AggregateLink, .CreatedAt, .CreatedBy, .Link]

/-- Whether the field has Go type `int` (the others have type `string`). -/
def Field.isInt : Field → Bool
  | .Clicks | .ClicksTotal | .NewHash | .CreatedAt => true
  | _ => false

/-! ## `encoding/json`: matching object keys to struct fields -/

/-- Folding of one character of a key (`appendFoldedName`/`foldRune`): ASCII
letters go to upper case, and the two non-ASCII characters whose case orbit
holds an ASCII letter go to that letter: U+212A (Kelvin sign) to `K` and
U+017F (long s) to `S`.  Every other non-ASCII character folds to a non-ASCII
character, which never equals a character of the (ASCII) tags of `links.go`;
it is left as it is. -/
def foldRune (c : Char) : Char :=
  if c = Char.ofNat 0x212A then 'K'
  else if c = Char.ofNat 0x17F then 'S'
  else c.toUpper

/-- Case folding of a key: `foldName`. -/
def foldName (s : String) : String := String.mk (s.data.map foldRune)

/-- The struct field an object key selects: `fields.byExactName[key]`, and,
failing that, `fields.byFoldedName[foldName(key)]`. -/
def fieldForKey {α : Type} (names : List (String × α)) (key : String) : Option α :=
  match names.find? (fun nf => nf.1 = key) with
  | some nf => some nf.2
  | none =>
    match names.find? (fun nf => foldName nf.1 = foldName key) with
    | some nf => some nf.2
    | none => none

/-- The name table of `Link` (`cachedTypeFields`). -/
def linkFields : List (String × Field) := Field.all.map fun f => (f.name, f)

/-! ## `encoding/json`: storing a value -/

/-- A type mismatch: `&UnmarshalTypeError{Value: value, Type: type}`. -/
def typeError (value goType : String) : JsonError := .UnmarshalTypeError value goType

/-- Lower and upper bound of the 64-bit `int`. -/
def intFits (i : Int) : Bool := decide (-(2 ^ 63 : Int) ≤ i) && decide (i < (2 ^ 63 : Int))

/-- Decoding a JSON value into an `int` (`literalStore` and the defaults of
`array`/`object`): `null` leaves the variable as it is, an integer literal in
range is stored, everything else records a type error and leaves the variable
as it is. -/
def storeInt (cur : Int) (saved : Option JsonError) : JVal → Int × Option JsonError
  | .null => (cur, saved)
  | .num (.int i) =>
    if intFits i then (i, saved)
    else (cur, saveError saved (typeError ("number " ++ toString i) "int"))
  | .num (.real t) => (cur, saveError saved (typeError ("number " ++ t) "int"))
  | .str _ => (cur, saveError saved (typeError "string" "int"))
  | .bool _ => (cur, saveError saved (typeError "bool" "int"))
  | .arr _ => (cur, saveError saved (typeError "array" "int"))
  | .obj _ => (cur, saveError saved (typeError "object" "int"))

/-- Decoding a JSON value into a `string`. -/
def storeString (cur : String) (saved : Option JsonError) : JVal → String × Option JsonError
  | .null => (cur, saved)
  | .str s => (s, saved)
  | .num _ => (cur, saveError saved (typeError "number" "string"))
  | .bool _ => (cur, saveError saved (typeError "bool" "string"))
  | .arr _ => (cur, saveError saved (typeError "array" "string"))
  | .obj _ => (cur, saveError saved (typeError "object" "string"))

/-- Decoding a JSON value into the field `f` of the `Link` `l`. -/
def storeField (l : Link) (saved : Option JsonError) (f : Field) (v : JVal) :
    Link × Option JsonError :=
  match f with
  | .Clicks => let r := storeInt l.Clicks saved v; ({ l with Clicks := r.1 }, r.2)
  | .ClicksTotal => let r := storeInt l.ClicksTotal saved v; ({ l with ClicksTotal := r.1 }, r.2)
  | .ShortURL => let r := storeString l.ShortURL saved v; ({ l with ShortURL := r.1 }, r.2)
  | .LongURL => let r := storeString l.LongURL saved v; ({ l with LongURL := r.1 }, r.2)
  | .GlobalHash => let r := storeString l.GlobalHash saved v; ({ l with GlobalHash := r.1 }, r.2)
  | .UserHash => let r := storeString l.UserHash saved v; ({ l with UserHash := r.1 }, r.2)
  | .Hash => let r := storeString l.Hash saved v; ({ l with Hash := r.1 }, r.2)
  | .NewHash => let r := storeInt l.NewHash saved v; ({ l with NewHash := r.1 }, r.2)
  | .Title => let r := storeString l.Title saved v; ({ l with Title := r.1 }, r.2)
  | .URL => let r := storeString l.URL saved v; ({ l with URL := r.1 }, r.2)
  | .AggregateLink =>
    let r := storeString l.AggregateLink saved v; ({ l with AggregateLink := r.1 }, r.2)
  | .CreatedAt => let r := storeInt l.CreatedAt saved v; ({ l with CreatedAt := r.1 }, r.2)
  | .CreatedBy => let r := storeString l.CreatedBy saved v; ({ l with CreatedBy := r.1 }, r.2)
  | .Link => let r := storeString l.Link saved v; ({ l with Link := r.1 }, r.2)

/-- One member of a JSON object decoded into a `Link`: a key that selects no
field is skipped, the value of a key that selects a field is stored in it. -/
def linkMember (st : Link × Option JsonError) (kv : String × JVal) : Link × Option JsonError :=
  match fieldForKey linkFields kv.1 with
  | none => st
  | some f => storeField st.1 st.2 f kv.2

/-- The decoder method `decodeState.object` on a `Link`: the members are
decoded one after the other, in the order of the text. -/
def linkObject (l : Link) (saved : Option JsonError) (kvs : List (String × JVal)) :
    Link × Option JsonError :=
  kvs.foldl linkMember (l, saved)

/-- The decoder method `decodeState.value` on a `Link`. -/
def linkValue (l : Link) (saved : Option JsonError) : JVal → Link × Option JsonError
  | .obj kvs => linkObject l saved kvs
  | .null => (l, saved)
  | .str _ => (l, saveError saved (typeError "string" "bitly.Link"))
  | .num _ => (l, saveError saved (typeError "number" "bitly.Link"))
  | .bool _ => (l, saveError saved (typeError "bool" "bitly.Link"))
  | .arr _ => (l, saveError saved (typeError "array" "bitly.Link"))

/-- The loop of `decodeState.array` on a `[]Link`: element `i` of the JSON
array is decoded into element `i` of the backing array (`backing`, zero beyond
its end). -/
def sliceElements (saved : Option JsonError) :
    List Link → List JVal → List Link × Option JsonError
  | _, [] => ([], saved)
  | backing, x :: xs =>
    let r := linkValue (backing.headD zeroLink) saved x
    let rest := sliceElements r.2 backing.tail xs
    (r.1 :: rest.1, rest.2)

/-- The decoder method `decodeState.array` on a `[]Link`: the slice gets the
length of the JSON array, what lay behind that length stays in the backing
array; an empty JSON array gives a fresh empty slice. -/
def sliceArray (s : LinkSlice) (saved : Option JsonError) (xs : List JVal) :
    LinkSlice × Option JsonError :=
  match xs with
  | [] => ({ elems := [], spare := [] }, saved)
  | _ :: _ =>
    let r := sliceElements saved (s.elems ++ s.spare) xs
    ({ elems := r.1, spare := (s.elems ++ s.spare).drop xs.length }, r.2)

/-- The decoder method `decodeState.value` on a `[]Link`. -/
def sliceValue (s : LinkSlice) (saved : Option JsonError) : JVal → LinkSlice × Option JsonError
  | .arr xs => sliceArray s saved xs
  | .null => (nilSlice, saved)
  | .str _ => (s, saveError saved (typeError "string" "[]bitly.Link"))
  | .num _ => (s, saveError saved (typeError "number" "[]bitly.Link"))
  | .bool _ => (s, saveError saved (typeError "bool" "[]bitly.Link"))
  | .obj _ => (s, saveError saved (typeError "object" "[]bitly.Link"))

/-! ### `map[string][]Link` -/

/-- A Go `map[string][]Link`, as an association list without repeated keys.
The `nil` map and the empty map are both `[]`. -/
abbrev LinkMap := List (String × List Link)

/-- The statement `m[key] = v`. -/
def LinkMap.set (m : LinkMap) (key : String) (v : List Link) : LinkMap :=
  (key, v) :: m.filter (fun e => e.1 ≠ key)

/-- The expression `m[key]`: the zero value (the `nil` slice) when the key is
missing. -/
def LinkMap.index (m : LinkMap) (key : String) : List Link :=
  match m.find? (fun e => e.1 = key) with
  | some e => e.2
  | none => []

/-- One member of a JSON object decoded into a `map[string][]Link`: the value
is decoded into a fresh `nil` slice, which is then stored under the key. -/
def mapMember (st : LinkMap × Option JsonError) (kv : String × JVal) :
    LinkMap × Option JsonError :=
  let r := sliceValue nilSlice st.2 kv.2
  (st.1.set kv.1 r.1.elems, r.2)

/-- The decoder method `decodeState.object` on a `map[string][]Link`. -/
def mapObject (m : LinkMap) (saved : Option JsonError) (kvs : List (String × JVal)) :
    LinkMap × Option JsonError :=
  kvs.foldl mapMember (m, saved)

/-- The decoder method `decodeState.value` on a `map[string][]Link`. -/
def mapValue (m : LinkMap) (saved : Option JsonError) : JVal → LinkMap × Option JsonError
  | .obj kvs => mapObject m saved kvs
  | .null => ([], saved)
  | .str _ => (m, saveError saved (typeError "string" "map[string][]bitly.Link"))
  | .num _ => (m, saveError saved (typeError "number" "map[string][]bitly.Link"))
  | .bool _ => (m, saveError saved (typeError "bool" "map[string][]bitly.Link"))
  | .arr _ => (m, saveError saved (typeError "array" "map[string][]bitly.Link"))

/-! ### `PopularLinks` -/

/-- The name table of `PopularLinks`: its one field, tagged `popular_links`. -/
def popularFields : List (String × Unit) := [("popular_links", ())]

/-- One member of a JSON object decoded into a `PopularLinks`. -/
def popularMember (st : PopularLinks × Option JsonError) (kv : String × JVal) :
    PopularLinks × Option JsonError :=
  match fieldForKey popularFields kv.1 with
  | none => st
  | some _ => let r := sliceValue st.1.Link st.2 kv.2; ({ Link := r.1 }, r.2)

/-- The decoder method `decodeState.object` on a `PopularLinks`. -/
def popularObject (p : PopularLinks) (saved : Option JsonError)
    (kvs : List (String × JVal)) : PopularLinks × Option JsonError :=
  kvs.foldl popularMember (p, saved)

/-- The decoder method `decodeState.value` on a `PopularLinks`. -/
def popularValue (p : PopularLinks) (saved : Option JsonError) :
    JVal → PopularLinks × Option JsonError
  | .obj kvs => popularObject p saved kvs
  | .null => (p, saved)
  | .str _ => (p, saveError saved (typeError "string" "bitly.PopularLinks"))
  | .num _ => (p, saveError saved (typeError "number" "bitly.PopularLinks"))
  | .bool _ => (p, saveError saved (typeError "bool" "bitly.PopularLinks"))
  | .arr _ => (p, saveError saved (typeError "array" "bitly.PopularLinks"))

/-! ### `json.Unmarshal` -/

/-- The validity scan that `json.Unmarshal` runs before it decodes anything
(`checkValid`): a text that is not JSON gives a syntax error, and so does a
JSON text nested deeper than `maxNestingDepth` ("exceeded max depth"). -/
def checkValid : RawMessage → Option JsonError
  | .malformed => some .SyntaxError
  | .json v => if v.depth ≤ maxNestingDepth then none else some .SyntaxError

/-- The call `json.Unmarshal(data, &m)` for `m` of type `map[string][]Link`: a
text that fails the validity scan gives a syntax error and leaves `m`
untouched; otherwise the value is decoded into `m` and the first saved error
is returned. -/
def Unmarshal.linkMap (data : RawMessage) (m : LinkMap) : LinkMap × Option JsonError :=
  match data with
  | .malformed => (m, some .SyntaxError)
  | .json v =>
    if v.depth ≤ maxNestingDepth then mapValue m none v else (m, some .SyntaxError)

/-- The call `json.Unmarshal(data, &l)` for `l` of type `Link`. -/
def Unmarshal.link (data : RawMessage) (l : Link) : Link × Option JsonError :=
  match data with
  | .malformed => (l, some .SyntaxError)
  | .json v =>
    if v.depth ≤ maxNestingDepth then linkValue l none v else (l, some .SyntaxError)

/-- The call `json.Unmarshal(data, &p)` for `p` of type `PopularLinks`. -/
def Unmarshal.popularLinks (data : RawMessage) (p : PopularLinks) :
    PopularLinks × Option JsonError :=
  match data with
  | .malformed => (p, some .SyntaxError)
  | .json v =>
    if v.depth ≤ maxNestingDepth then popularValue p none v else (p, some .SyntaxError)

/-! ## The client core, as `links.go` uses it -/

/-- The Go type `url.Values`, a `map[string][]string`, written as the list of
its entries in the order of the composite literal that builds it. -/
abbrev Values := List (String × List String)

/-- Modelled from the spec: the response type of the client core, which is not
part of `links.go`.  "Every API response carries a status code, a status
message, and a data payload"; `links.go` reads the field `Data` only. -/
structure Response where
  StatusCode : Int
  StatusTxt : String
  Data : RawMessage

/-- One call of `Client.get`: its path and its query parameters. -/
structure Call where
  path : String
  params : Values
  deriving DecidableEq, Repr

/-- A method of `Links`: it returns, or it calls `client.get(path, params)`
and goes on with the answer.  `get` answers with an error or, the error being
`nil`, with a response. -/
inductive Prog (α : Type) where
  | ret (a : α)
  | get (path : String) (params : Values) (k : Except GoError Response → Prog α)

/-- The client core, as far as `Links` sees it: the function `Client.get`. -/
abbrev Client := String → Values → Except GoError Response

/-- Running a method against a client core: the value returned and the calls
of `get` made, in order. -/
def Prog.run {α : Type} (client : Client) : Prog α → α × List Call
  | .ret a => (a, [])
  | .get path params k =>
    let r := Prog.run client (k (client path params))
    (r.1, { path := path, params := params } :: r.2)

/-- The value a method returns. -/
def Prog.result {α : Type} (client : Client) (p : Prog α) : α := (p.run client).1

/-- The calls of `get` a method makes. -/
def Prog.calls {α : Type} (client : Client) (p : Prog α) : List Call := (p.run client).2

/-! ## `links.go` -/

namespace Links

/-- Go: `func (client *Links) req(path string, params url.Values, key string)
(links []Link, err error)`. -/
def req (path : String) (params : Values) (key : String) :
    Prog (List Link × Option GoError) :=
  .get path params fun r =>
    match r with
    | .error err => .ret ([], some err)
    | .ok req =>
      let res := Unmarshal.linkMap req.Data []
      match res.2 with
      | some err => .ret ([], some (.json err))
      | none => .ret (res.1.index key, none)

/-- Go: `func (client *Links) Expand(urls ...string) (links []Link, err error)`. -/
def Expand (urls : List String) : Prog (List Link × Option GoError) :=
  req "/expand" [("shortUrl", urls)] "expand"

/-- Go: `func (client *Links) Info(urls ...string) (links []Link, err error)`. -/
def Info (urls : List String) : Prog (List Link × Option GoError) :=
  req "/info" [("shortUrl", urls)] "info"

/-- Go: `func (client *Links) Lookup(urls ...string) (links []Link, err error)`. -/
def Lookup (urls : List String) : Prog (List Link × Option GoError) :=
  req "/link/lookup" [("url", urls)] "link_lookup"

/-- Go: `func (client *Links) Shorten(longURL string) (link Link, err error)`: the
payload is decoded into the result variable `link` itself. -/
def Shorten (longURL : String) : Prog (Link × Option GoError) :=
  .get "/shorten" [("longUrl", [longURL])] fun r =>
    match r with
    | .error err => .ret (zeroLink, some err)
    | .ok req =>
      let res := Unmarshal.link req.Data zeroLink
      .ret (res.1, res.2.map GoError.json)

/-- Go: `func (client *Links) Clicks(shortURL string, unit string, units string)
(link Link, err error)`. -/
def Clicks (shortURL unit units : String) : Prog (Link × Option GoError) :=
  .get "/link/clicks" [("link", [shortURL]), ("unit", [unit]), ("units", [units])] fun r =>
    match r with
    | .error err => .ret (zeroLink, some err)
    | .ok req =>
      let res := Unmarshal.link req.Data zeroLink
      .ret (res.1, res.2.map GoError.json)

/-- Go: `func (client *Links) Popular(unit string, units string)
(links PopularLinks, err error)`: the payload is decoded into the local `res`,
which is returned only when decoding succeeds. -/
def Popular (unit units : String) : Prog (PopularLinks × Option GoError) :=
  .get "/user/popular_links" [("unit", [unit]), ("units", [units])] fun r =>
    match r with
    | .error err => .ret (zeroPopularLinks, some err)
    | .ok req =>
      let res := Unmarshal.popularLinks req.Data zeroPopularLinks
      match res.2 with
      | some err => .ret (zeroPopularLinks, some (.json err))
      | none => .ret (res.1, none)

end Links

/-! ## Shapes of payloads

The predicates and functions of this section are not part of the code: they
describe JSON values, and are what the theorems compare the code with. -/

/-- The value of a field of a `Link`, as the JSON value that denotes it. -/
def fieldOf (l : Link) : Field → JVal
  | .Clicks => .num (.int l.Clicks)
  | .ClicksTotal => .num (.int l.ClicksTotal)
  | .ShortURL => .str l.ShortURL
  | .LongURL => .str l.LongURL
  | .GlobalHash => .str l.GlobalHash
  | .UserHash => .str l.UserHash
  | .Hash => .str l.Hash
  | .NewHash => .num (.int l.NewHash)
  | .Title => .str l.Title
  | .URL => .str l.URL
  | .AggregateLink => .str l.AggregateLink
  | .CreatedAt => .num (.int l.CreatedAt)
  | .CreatedBy => .str l.CreatedBy
  | .Link => .str l.Link

/-- The JSON value has the type of the field: a string for a `string` field,
an integer literal within the range of `int` for an `int` field. -/
def wellTyped (f : Field) : JVal → Bool
  | .str _ => !f.isInt
  | .num (.int i) => f.isInt && intFits i
  | _ => false

/-- The JSON value is `null` or has the type of the field. -/
def accepts (f : Field) : JVal → Bool
  | .null => true
  | v => wellTyped f v

/-- Every member of the object whose key selects a field of `Link` has a value
that is `null` or of the type of that field. -/
def membersAccepted (kvs : List (String × JVal)) : Bool :=
  kvs.all fun kv =>
    match fieldForKey linkFields kv.1 with
    | none => true
    | some f => accepts f kv.2

/-- The target shape `Link`: `null`, or an object whose members are accepted. -/
def decodesAsLink : JVal → Bool
  | .null => true
  | .obj kvs => membersAccepted kvs
  | _ => false

/-- The target shape `[]Link`: `null`, or an array of values of shape `Link`. -/
def decodesAsLinks : JVal → Bool
  | .null => true
  | .arr xs => xs.all decodesAsLink
  | _ => false

/-- The target shape `map[string][]Link`: `null`, or an object all of whose
values have shape `[]Link`. -/
def decodesAsLinkMap : JVal → Bool
  | .null => true
  | .obj kvs => kvs.all fun kv => decodesAsLinks kv.2
  | _ => false

/-- The target shape `PopularLinks`: `null`, or an object in which every member
whose key selects the field `popular_links` has a value of shape `[]Link`. -/
def decodesAsPopularLinks : JVal → Bool
  | .null => true
  | .obj kvs =>
    kvs.all fun kv =>
      match fieldForKey popularFields kv.1 with
      | none => true
      | some _ => decodesAsLinks kv.2
  | _ => false

/-- The JSON value is nested no deeper than `maxNestingDepth`. -/
def JVal.withinDepth (v : JVal) : Bool := decide (v.depth ≤ maxNestingDepth)

/-- The payloads that decode for `Shorten` and `Clicks`: a JSON text, nested
no deeper than the limit, of shape `Link`. -/
def RawMessage.decodesAsLink : RawMessage → Bool
  | .malformed => false
  | .json v => v.withinDepth && Bitly.decodesAsLink v

/-- The payloads that decode for `Expand`, `Info` and `Lookup`: a JSON text,
nested no deeper than the limit, of shape `map[string][]Link`. -/
def RawMessage.decodesAsLinkMap : RawMessage → Bool
  | .malformed => false
  | .json v => v.withinDepth && Bitly.decodesAsLinkMap v

/-- The payloads that decode for `Popular`: a JSON text, nested no deeper than
the limit, of shape `PopularLinks`. -/
def RawMessage.decodesAsPopularLinks : RawMessage → Bool
  | .malformed => false
  | .json v => v.withinDepth && Bitly.decodesAsPopularLinks v

/-- The key selects a field of `Link`. -/
def selectsLinkField (key : String) : Bool := (fieldForKey linkFields key).isSome

/-- A Link record: a JSON object, given by its members, in which every member
either has a key that selects no field of `Link`, or has the JSON name of a
field as its key, spelled exactly, and a value of the type of that field; no
key that selects a field occurs twice. -/
def isLinkRecord (r : List (String × JVal)) : Bool :=
  decide ((r.map Prod.fst).filter selectsLinkField).Nodup &&
  r.all fun kv =>
    match fieldForKey linkFields kv.1 with
    | none => true
    | some f => decide (kv.1 = f.name) && wellTyped f kv.2

/-- The integer stored under a key of an object; zero when the key is absent. -/
def intAt (r : List (String × JVal)) (key : String) : Int :=
  match r.lookup key with
  | some (.num (.int i)) => i
  | _ => 0

/-- The string stored under a key of an object; empty when the key is absent. -/
def strAt (r : List (String × JVal)) (key : String) : String :=
  match r.lookup key with
  | some (.str s) => s
  | _ => ""

/-- The `Link` a record denotes, in the words of the specification: each field
holds the value stored under its JSON key, and a field whose key is absent is
the zero value. -/
def recordLink (r : List (String × JVal)) : Link :=
  { Clicks := intAt r "link_clicks"
    ClicksTotal := intAt r "clicks"
    ShortURL := strAt r "short_url"
    LongURL := strAt r "long_url"
    GlobalHash := strAt r "global_hash"
    UserHash := strAt r "user_hash"
    Hash := strAt r "hash"
    NewHash := intAt r "new_hash"
    Title := strAt r "title"
    URL := strAt r "url"
    AggregateLink := strAt r "aggregate_link"
    CreatedAt := intAt r "created_at"
    CreatedBy := strAt r "created_by"
    Link := strAt r "link" }

/-- The key selects the field `popular_links` of `PopularLinks`. -/
def selectsPopularLinks (key : String) : Bool := (fieldForKey popularFields key).isSome

/-- The effect of one decoding step on the saved error: an accepted value
leaves the saved error as it is, a rejected value saves an error unless one is
saved already. -/
def Accepts (ok : Bool) (saved res : Option JsonError) : Prop :=
  (ok = true → res = saved) ∧ (ok = false → ∃ e, res = saveError saved e)

/-! ## Sample clients and payloads -/

/-- A client core whose `get` answers every call with the error `e`. -/
def failing (e : GoError) : Client := fun _ _ => .error e

/-- The response with status 200 and the payload `data`. -/
def okResponse (data : RawMessage) : Response :=
  { StatusCode := 200, StatusTxt := "OK", Data := data }

/-- A client core whose `get` answers every call with status 200 and the
payload `data`. -/
def answering (data : RawMessage) : Client := fun _ _ => .ok (okResponse data)

/-- The record of the `Expand` scenario. -/
def expandRecord : List (String × JVal) :=
  [("global_hash", .str "1RmnUT"), ("long_url", .str "http://google.com"),
   ("short_url", .str "http://bit.ly/1RmnUT")]

/-- The record of the `Shorten` scenario. -/
def shortenRecord : List (String × JVal) :=
  [("long_url", .str "http://google.com/"), ("hash", .str "ze6poY"),
   ("url", .str "http://bit.ly/ze6poY")]

/-- An object with a string under `long_url` followed by a string under the
integer field `new_hash`. -/
def illTypedRecord : List (String × JVal) :=
  [("long_url", .str "http://google.com/"), ("new_hash", .str "x")]

/-- An object with three well-typed members of `Link`, and under a key that
matches no field of `Link` arrays nested three deep. -/
def nestedExtraRecord : List (String × JVal) :=
  [("extra", .arr [.arr [.arr []]]), ("hash", .str "ze6poY"), ("clicks", .num (.int 7))]

/-- The value `v` inside `n` arrays: `[[...[v]...]]`. -/
def nest : Nat → JVal → JVal
  | 0, v => v
  | n + 1, v => .arr [nest n v]

/-- An object with `null` inside `n` arrays under a key that matches no field
of `Link`, followed by a string under `hash`. -/
def deepRecord (n : Nat) : List (String × JVal) :=
  [("extra", nest n .null), ("hash", .str "h")]

/-- An object whose only member has the key `LONG_URL`. -/
def upperCaseRecord : List (String × JVal) :=
  [("LONG_URL", .str "http://google.com/")]

/-- A record with a title and a click count. -/
def popularRecord : List (String × JVal) :=
  [("title", .str "Google"), ("clicks", .num (.int 42))]

/-- The members of a payload with a well-formed list under each of `expand`,
`info` and `link_lookup`, and a string under `other`. -/
def illShapedPayload : List (String × JVal) :=
  [("expand", .arr [.obj expandRecord]), ("info", .arr [.obj expandRecord]),
   ("link_lookup", .arr [.obj expandRecord]), ("other", .str "x")]

/-! ## What a method returns, by the answer of `get` -/

section results

open Links

theorem req_result_error (client : Client) (path : String) (params : Values) (key : String)
    (e : GoError) (h : client path params = .error e) :
    (req path params key).result client = ([], some e) := by
  simp [req, Prog.result, Prog.run, h]

theorem req_result_ok (client : Client) (path : String) (params : Values) (key : String)
    (resp : Response) (h : client path params = .ok resp) :
    (req path params key).result client =
      match (Unmarshal.linkMap resp.Data []).2 with
      | some err => ([], some (.json err))
      | none => ((Unmarshal.linkMap resp.Data []).1.index key, none) := by
  simp only [req, Prog.result, Prog.run, h]
  cases (Unmarshal.linkMap resp.Data []).2 <;> rfl

theorem req_calls (client : Client) (path : String) (params : Values) (key : String) :
    (req path params key).calls client = [{ path := path, params := params }] := by
  simp only [req, Prog.calls, Prog.run]
  cases client path params with
  | error e => rfl
  | ok resp => simp only []; cases (Unmarshal.linkMap resp.Data []).2 <;> rfl

theorem Shorten_result_ok (client : Client) (longURL : String) (resp : Response)
    (h : client "/shorten" [("longUrl", [longURL])] = .ok resp) :
    (Shorten longURL).result client =
      ((Unmarshal.link resp.Data zeroLink).1, (Unmarshal.link resp.Data zeroLink).2.map .json) := by
  simp [Shorten, Prog.result, Prog.run, h]

theorem Clicks_result_ok (client : Client) (shortURL unit units : String) (resp : Response)
    (h : client "/link/clicks" [("link", [shortURL]), ("unit", [unit]), ("units", [units])]
      = .ok resp) :
    (Clicks shortURL unit units).result client =
      ((Unmarshal.link resp.Data zeroLink).1, (Unmarshal.link resp.Data zeroLink).2.map .json) := by
  simp [Clicks, Prog.result, Prog.run, h]

theorem Popular_result_ok (client : Client) (unit units : String) (resp : Response)
    (h : client "/user/popular_links" [("unit", [unit]), ("units", [units])] = .ok resp) :
    (Popular unit units).result client =
      match (Unmarshal.popularLinks resp.Data zeroPopularLinks).2 with
      | some err => (zeroPopularLinks, some (.json err))
      | none => ((Unmarshal.popularLinks resp.Data zeroPopularLinks).1, none) := by
  simp only [Popular, Prog.result, Prog.run, h]
  cases (Unmarshal.popularLinks resp.Data zeroPopularLinks).2 <;> rfl

end results

/-! ## Keys and fields -/

section keys

theorem fieldForKey_isSome_iff {α : Type} (names : List (String × α)) (key : String) :
    (fieldForKey names key).isSome = true ↔ ∃ nf ∈ names, foldName nf.1 = foldName key := by
  unfold fieldForKey
  constructor
  · intro h
    cases h1 : names.find? (fun nf => decide (nf.1 = key)) with
    | some nf =>
      have hmem := List.mem_of_find?_eq_some h1
      have hp := List.find?_some h1
      simp only [decide_eq_true_eq] at hp
      exact ⟨nf, hmem, by rw [hp]⟩
    | none =>
      rw [h1] at h
      cases h2 : names.find? (fun nf => decide (foldName nf.1 = foldName key)) with
      | some nf =>
        have hmem := List.mem_of_find?_eq_some h2
        have hp := List.find?_some h2
        simp only [decide_eq_true_eq] at hp
        exact ⟨nf, hmem, hp⟩
      | none =>
        rw [h2] at h
        cases h
  · rintro ⟨nf, hmem, hfold⟩
    cases h1 : names.find? (fun nf => decide (nf.1 = key)) with
    | some nf2 => rfl
    | none =>
      cases h2 : names.find? (fun nf => decide (foldName nf.1 = foldName key)) with
      | some nf2 => rfl
      | none =>
        rw [List.find?_eq_none] at h2
        have := h2 nf hmem
        simp [hfold] at this

theorem selectsPopularLinks_iff (key : String) :
    selectsPopularLinks key = true ↔ foldName key = "POPULAR_LINKS" := by
  unfold selectsPopularLinks
  rw [fieldForKey_isSome_iff]
  have hf : foldName "popular_links" = "POPULAR_LINKS" := by decide
  simp only [popularFields, List.mem_singleton]
  constructor
  · rintro ⟨nf, rfl, h⟩
    rw [← h, hf]
  · intro h
    exact ⟨_, rfl, by rw [h, hf]⟩

theorem selectsLinkField_iff (key : String) :
    selectsLinkField key = true ↔ ∃ f : Field, foldName f.name = foldName key := by
  unfold selectsLinkField
  rw [fieldForKey_isSome_iff]
  constructor
  · rintro ⟨nf, hmem, h⟩
    simp only [linkFields, List.mem_map] at hmem
    obtain ⟨f, _, rfl⟩ := hmem
    exact ⟨f, h⟩
  · rintro ⟨f, h⟩
    refine ⟨(f.name, f), ?_, h⟩
    simp only [linkFields, List.mem_map]
    exact ⟨f, by cases f <;> simp [Field.all], rfl⟩

theorem foldName_name_injective {f g : Field} (h : foldName f.name = foldName g.name) :
    f = g := by
  cases f <;> cases g <;> first | rfl | (exfalso; revert h; decide)

/-- A key selects the field `f` of `Link` exactly when it equals the JSON name
of `f` up to letter case. -/
theorem fieldForKey_linkFields_iff (key : String) (f : Field) :
    fieldForKey linkFields key = some f ↔ foldName f.name = foldName key := by
  have hmem : ∀ nf ∈ linkFields, nf.1 = nf.2.name := by
    intro nf hnf
    simp only [linkFields, List.mem_map] at hnf
    obtain ⟨g, _, rfl⟩ := hnf
    rfl
  have hfwd : ∀ g, fieldForKey linkFields key = some g → foldName g.name = foldName key := by
    intro g hg
    unfold fieldForKey at hg
    cases h1 : linkFields.find? (fun nf => decide (nf.1 = key)) with
    | some nf =>
      rw [h1] at hg
      have hp := List.find?_some h1
      simp only [decide_eq_true_eq] at hp
      have hn := hmem nf (List.mem_of_find?_eq_some h1)
      simp only [Option.some.injEq] at hg
      rw [← hg, ← hn, hp]
    | none =>
      rw [h1] at hg
      cases h2 : linkFields.find? (fun nf => decide (foldName nf.1 = foldName key)) with
      | some nf =>
        rw [h2] at hg
        have hp := List.find?_some h2
        simp only [decide_eq_true_eq] at hp
        have hn := hmem nf (List.mem_of_find?_eq_some h2)
        simp only [Option.some.injEq] at hg
        rw [← hg, ← hn, hp]
      | none => rw [h2] at hg; cases hg
  constructor
  · exact hfwd f
  · intro h
    have hsome : selectsLinkField key = true := (selectsLinkField_iff key).2 ⟨f, h⟩
    unfold selectsLinkField at hsome
    cases hg : fieldForKey linkFields key with
    | none => rw [hg] at hsome; cases hsome
    | some g =>
      have := hfwd g hg
      rw [foldName_name_injective (this.trans h.symm)]

theorem depth_nest (n : Nat) (v : JVal) : (nest n v).depth = n + v.depth := by
  induction n with
  | zero => simp [nest]
  | succ n ih => simp [nest, JVal.depth, depthOfElements, ih]; omega

theorem depth_deepRecord (n : Nat) : (JVal.obj (deepRecord n)).depth = n + 1 := by
  simp [deepRecord, JVal.depth, depthOfMembers, depth_nest]

theorem isLinkRecord_deepRecord (n : Nat) : isLinkRecord (deepRecord n) = true := by
  have h1 : fieldForKey linkFields "extra" = none := by decide
  have h2 : fieldForKey linkFields "hash" = some Field.Hash := by decide
  have h3 : selectsLinkField "extra" = false := by decide
  have h4 : selectsLinkField "hash" = true := by decide
  simp [isLinkRecord, deepRecord, h1, h2, h3, h4, List.filter, wellTyped, Field.isInt,
    Field.name]

end keys

/-! ## Errors of the decoder -/

section errors

theorem saveError_saveError (saved : Option JsonError) (e e2 : JsonError) :
    saveError (saveError saved e) e2 = saveError saved e := by
  cases saved <;> rfl

theorem saveError_ne_none (saved : Option JsonError) (e : JsonError) :
    saveError saved e ≠ none := by
  cases saved <;> simp [saveError]

theorem Accepts.of_true {saved res : Option JsonError} (h : res = saved) :
    Accepts true saved res :=
  ⟨fun _ => h, fun h2 => (by cases h2)⟩

theorem Accepts.of_false {saved res : Option JsonError} (e : JsonError)
    (h : res = saveError saved e) : Accepts false saved res :=
  ⟨fun h2 => (by cases h2), fun _ => ⟨e, h⟩⟩

theorem Accepts.trans {a b : Bool} {s1 s2 s3 : Option JsonError}
    (h1 : Accepts a s1 s2) (h2 : Accepts b s2 s3) : Accepts (a && b) s1 s3 := by
  cases a <;> cases b
  · obtain ⟨e, he⟩ := h1.2 rfl
    obtain ⟨e2, he2⟩ := h2.2 rfl
    exact Accepts.of_false e (by rw [he2, he, saveError_saveError])
  · obtain ⟨e, he⟩ := h1.2 rfl
    exact Accepts.of_false e (by rw [h2.1 rfl, he])
  · obtain ⟨e2, he2⟩ := h2.2 rfl
    exact Accepts.of_false e2 (by rw [he2, h1.1 rfl])
  · exact Accepts.of_true (by rw [h2.1 rfl, h1.1 rfl])

theorem Accepts.none_iff {ok : Bool} {res : Option JsonError} (h : Accepts ok none res) :
    res = none ↔ ok = true := by
  cases ok
  · obtain ⟨e, he⟩ := h.2 rfl
    simp [he, saveError]
  · simp [h.1 rfl]

theorem Accepts.foldl {σ β : Type} (f : σ × Option JsonError → β → σ × Option JsonError)
    (ok : β → Bool) (hf : ∀ st b, Accepts (ok b) st.2 (f st b).2) :
    ∀ (bs : List β) (st : σ × Option JsonError),
      Accepts (bs.all ok) st.2 (bs.foldl f st).2 := by
  intro bs
  induction bs with
  | nil => intro st; exact Accepts.of_true rfl
  | cons b bs ih =>
    intro st
    simp only [List.all_cons, List.foldl_cons]
    exact Accepts.trans (hf st b) (ih (f st b))

theorem storeInt_accepts (cur : Int) (saved : Option JsonError) (f : Field) (v : JVal)
    (hf : f.isInt = true) : Accepts (accepts f v) saved (storeInt cur saved v).2 := by
  cases v with
  | null => exact Accepts.of_true rfl
  | bool b => exact Accepts.of_false _ rfl
  | str s => simp only [accepts, wellTyped, hf]; exact Accepts.of_false _ rfl
  | arr xs => exact Accepts.of_false _ rfl
  | obj kvs => exact Accepts.of_false _ rfl
  | num n =>
    cases n with
    | real t => exact Accepts.of_false _ rfl
    | int i =>
      cases h : intFits i
      · simp only [accepts, wellTyped, hf, storeInt, Bool.true_and, h]
        exact Accepts.of_false (typeError ("number " ++ toString i) "int") rfl
      · simp only [accepts, wellTyped, hf, storeInt, Bool.true_and, h]
        exact Accepts.of_true rfl

theorem storeString_accepts (cur : String) (saved : Option JsonError) (f : Field) (v : JVal)
    (hf : f.isInt = false) : Accepts (accepts f v) saved (storeString cur saved v).2 := by
  cases v with
  | null => exact Accepts.of_true rfl
  | bool b => exact Accepts.of_false _ rfl
  | str s => simp only [accepts, wellTyped, hf]; exact Accepts.of_true rfl
  | arr xs => exact Accepts.of_false _ rfl
  | obj kvs => exact Accepts.of_false _ rfl
  | num n =>
    cases n with
    | real t => exact Accepts.of_false _ rfl
    | int i => simp only [accepts, wellTyped, hf, Bool.false_and]; exact Accepts.of_false _ rfl

theorem storeField_accepts (l : Link) (saved : Option JsonError) (f : Field) (v : JVal) :
    Accepts (accepts f v) saved (storeField l saved f v).2 := by
  cases f
  case Clicks => exact storeInt_accepts _ saved _ v rfl
  case ClicksTotal => exact storeInt_accepts _ saved _ v rfl
  case NewHash => exact storeInt_accepts _ saved _ v rfl
  case CreatedAt => exact storeInt_accepts _ saved _ v rfl
  all_goals exact storeString_accepts _ saved _ v rfl

theorem linkMember_accepts (st : Link × Option JsonError) (kv : String × JVal) :
    Accepts (match fieldForKey linkFields kv.1 with
      | none => true
      | some f => accepts f kv.2) st.2 (linkMember st kv).2 := by
  unfold linkMember
  cases fieldForKey linkFields kv.1 with
  | none => exact Accepts.of_true rfl
  | some f => exact storeField_accepts st.1 st.2 f kv.2

theorem linkObject_accepts (l : Link) (saved : Option JsonError) (kvs : List (String × JVal)) :
    Accepts (membersAccepted kvs) saved (linkObject l saved kvs).2 :=
  Accepts.foldl linkMember _ linkMember_accepts kvs (l, saved)

theorem linkValue_accepts (l : Link) (saved : Option JsonError) (v : JVal) :
    Accepts (decodesAsLink v) saved (linkValue l saved v).2 := by
  cases v with
  | null => exact Accepts.of_true rfl
  | obj kvs => exact linkObject_accepts l saved kvs
  | bool b => exact Accepts.of_false _ rfl
  | str s => exact Accepts.of_false _ rfl
  | num n => exact Accepts.of_false _ rfl
  | arr xs => exact Accepts.of_false _ rfl

theorem sliceElements_accepts (xs : List JVal) :
    ∀ (saved : Option JsonError) (backing : List Link),
      Accepts (xs.all decodesAsLink) saved (sliceElements saved backing xs).2 := by
  induction xs with
  | nil => intro saved backing; exact Accepts.of_true rfl
  | cons x xs ih =>
    intro saved backing
    simp only [List.all_cons, sliceElements]
    exact Accepts.trans (linkValue_accepts _ saved x) (ih _ _)

theorem sliceValue_accepts (s : LinkSlice) (saved : Option JsonError) (v : JVal) :
    Accepts (decodesAsLinks v) saved (sliceValue s saved v).2 := by
  cases v with
  | null => exact Accepts.of_true rfl
  | arr xs =>
    cases xs with
    | nil => exact Accepts.of_true rfl
    | cons x xs => exact sliceElements_accepts (x :: xs) saved _
  | bool b => exact Accepts.of_false _ rfl
  | str s => exact Accepts.of_false _ rfl
  | num n => exact Accepts.of_false _ rfl
  | obj kvs => exact Accepts.of_false _ rfl

theorem mapObject_accepts (m : LinkMap) (saved : Option JsonError) (kvs : List (String × JVal)) :
    Accepts (kvs.all fun kv => decodesAsLinks kv.2) saved (mapObject m saved kvs).2 :=
  Accepts.foldl mapMember _ (fun st kv => sliceValue_accepts nilSlice st.2 kv.2) kvs (m, saved)

theorem checkValid_json (v : JVal) :
    checkValid (.json v) = none ↔ v.depth ≤ maxNestingDepth := by
  by_cases h : v.depth ≤ maxNestingDepth <;> simp [checkValid, h]

theorem mapValue_eq_none (m : LinkMap) (v : JVal) :
    (mapValue m none v).2 = none ↔ decodesAsLinkMap v = true := by
  cases v with
  | obj kvs => exact (mapObject_accepts m none kvs).none_iff
  | null => simp [mapValue, decodesAsLinkMap]
  | bool b => simp [mapValue, decodesAsLinkMap, saveError]
  | str s => simp [mapValue, decodesAsLinkMap, saveError]
  | num n => simp [mapValue, decodesAsLinkMap, saveError]
  | arr xs => simp [mapValue, decodesAsLinkMap, saveError]

theorem Unmarshal.linkMap_eq_none (data : RawMessage) (m : LinkMap) :
    (Unmarshal.linkMap data m).2 = none ↔ data.decodesAsLinkMap = true := by
  cases data with
  | malformed => simp [Unmarshal.linkMap, RawMessage.decodesAsLinkMap]
  | json v =>
    by_cases h : v.depth ≤ maxNestingDepth
    · simp only [Unmarshal.linkMap, RawMessage.decodesAsLinkMap, JVal.withinDepth, h,
        if_true, decide_True, Bool.true_and]
      exact mapValue_eq_none m v
    · simp [Unmarshal.linkMap, RawMessage.decodesAsLinkMap, JVal.withinDepth, h]

theorem Unmarshal.link_eq_none (data : RawMessage) (l : Link) :
    (Unmarshal.link data l).2 = none ↔ data.decodesAsLink = true := by
  cases data with
  | malformed => simp [Unmarshal.link, RawMessage.decodesAsLink]
  | json v =>
    by_cases h : v.depth ≤ maxNestingDepth
    · simp only [Unmarshal.link, RawMessage.decodesAsLink, JVal.withinDepth, h,
        if_true, decide_True, Bool.true_and]
      exact (linkValue_accepts l none v).none_iff
    · simp [Unmarshal.link, RawMessage.decodesAsLink, JVal.withinDepth, h]

theorem popularMember_accepts (st : PopularLinks × Option JsonError) (kv : String × JVal) :
    Accepts (match fieldForKey popularFields kv.1 with
      | none => true
      | some _ => decodesAsLinks kv.2) st.2 (popularMember st kv).2 := by
  unfold popularMember
  cases fieldForKey popularFields kv.1 with
  | none => exact Accepts.of_true rfl
  | some f => exact sliceValue_accepts st.1.Link st.2 kv.2

theorem popularValue_eq_none (p : PopularLinks) (v : JVal) :
    (popularValue p none v).2 = none ↔ decodesAsPopularLinks v = true := by
  cases v with
  | obj kvs =>
    exact (Accepts.foldl popularMember _ popularMember_accepts kvs (p, none)).none_iff
  | null => simp [popularValue, decodesAsPopularLinks]
  | bool b => simp [popularValue, decodesAsPopularLinks, saveError]
  | str s => simp [popularValue, decodesAsPopularLinks, saveError]
  | num n => simp [popularValue, decodesAsPopularLinks, saveError]
  | arr xs => simp [popularValue, decodesAsPopularLinks, saveError]

theorem Unmarshal.popularLinks_eq_none (data : RawMessage) (p : PopularLinks) :
    (Unmarshal.popularLinks data p).2 = none ↔ data.decodesAsPopularLinks = true := by
  cases data with
  | malformed => simp [Unmarshal.popularLinks, RawMessage.decodesAsPopularLinks]
  | json v =>
    by_cases h : v.depth ≤ maxNestingDepth
    · simp only [Unmarshal.popularLinks, RawMessage.decodesAsPopularLinks, JVal.withinDepth,
        h, if_true, decide_True, Bool.true_and]
      exact popularValue_eq_none p v
    · simp [Unmarshal.popularLinks, RawMessage.decodesAsPopularLinks, JVal.withinDepth, h]

theorem Unmarshal.linkMap_of_valid (v : JVal) (m : LinkMap)
    (h : checkValid (.json v) = none) : Unmarshal.linkMap (.json v) m = mapValue m none v := by
  simp only [Unmarshal.linkMap, (checkValid_json v).1 h, if_true]

theorem Unmarshal.link_of_valid (v : JVal) (l : Link)
    (h : checkValid (.json v) = none) : Unmarshal.link (.json v) l = linkValue l none v := by
  simp only [Unmarshal.link, (checkValid_json v).1 h, if_true]

theorem Unmarshal.popularLinks_of_valid (v : JVal) (p : PopularLinks)
    (h : checkValid (.json v) = none) :
    Unmarshal.popularLinks (.json v) p = popularValue p none v := by
  simp only [Unmarshal.popularLinks, (checkValid_json v).1 h, if_true]

end errors

/-! ## Values of the decoder on Link records -/

section records

theorem fieldForKey_name (f : Field) : fieldForKey linkFields f.name = some f := by
  cases f <;> rfl

theorem Field.name_injective {f g : Field} (h : f.name = g.name) : f = g := by
  have h1 := fieldForKey_name f
  rw [h, fieldForKey_name g] at h1
  exact (Option.some.inj h1).symm

theorem link_ext_fieldOf {l l2 : Link} (h : ∀ g, fieldOf l g = fieldOf l2 g) : l = l2 := by
  cases l; cases l2
  have h1 := h .Clicks; have h2 := h .ClicksTotal; have h3 := h .ShortURL
  have h4 := h .LongURL; have h5 := h .GlobalHash; have h6 := h .UserHash
  have h7 := h .Hash; have h8 := h .NewHash; have h9 := h .Title; have h10 := h .URL
  have h11 := h .AggregateLink; have h12 := h .CreatedAt; have h13 := h .CreatedBy
  have h14 := h .Link
  simp only [fieldOf, JVal.num.injEq, JNumber.int.injEq, JVal.str.injEq] at *
  simp [*]

theorem storeField_fieldOf (l : Link) (saved : Option JsonError) (f : Field) (v : JVal)
    (h : wellTyped f v = true) (g : Field) :
    fieldOf (storeField l saved f v).1 g = if g = f then v else fieldOf l g := by
  cases v with
  | null => simp [wellTyped] at h
  | bool b => simp [wellTyped] at h
  | arr xs => simp [wellTyped] at h
  | obj kvs => simp [wellTyped] at h
  | str s =>
    cases f <;> simp [wellTyped, Field.isInt] at h <;>
      cases g <;> simp [storeField, storeString, fieldOf]
  | num n =>
    cases n with
    | real t => simp [wellTyped] at h
    | int i =>
      cases f <;> simp [wellTyped, Field.isInt] at h <;>
        cases g <;> simp [storeField, storeInt, fieldOf, h]

theorem isLinkRecord_cons (kv : String × JVal) (r : List (String × JVal))
    (h : isLinkRecord (kv :: r) = true) :
    isLinkRecord r = true ∧
      (fieldForKey linkFields kv.1 = none ∨
        ∃ f, fieldForKey linkFields kv.1 = some f ∧ kv.1 = f.name ∧
          wellTyped f kv.2 = true ∧
          ∀ p ∈ r, p.1 ≠ kv.1) := by
  simp only [isLinkRecord, List.map_cons, List.all_cons, Bool.and_eq_true,
    decide_eq_true_eq] at h
  obtain ⟨h1, h3, h4⟩ := h
  cases hf : fieldForKey linkFields kv.1 with
  | none =>
    have hs : selectsLinkField kv.1 = false := by simp [selectsLinkField, hf]
    rw [List.filter_cons_of_neg (by simp [hs])] at h1
    refine ⟨?_, Or.inl rfl⟩
    simp only [isLinkRecord, Bool.and_eq_true, decide_eq_true_eq]
    exact ⟨h1, h4⟩
  | some f =>
    have hs : selectsLinkField kv.1 = true := by simp [selectsLinkField, hf]
    rw [List.filter_cons_of_pos hs, List.nodup_cons] at h1
    rw [hf] at h3
    simp only [Bool.and_eq_true, decide_eq_true_eq] at h3
    refine ⟨?_, Or.inr ⟨f, rfl, h3.1, h3.2, ?_⟩⟩
    · simp only [isLinkRecord, Bool.and_eq_true, decide_eq_true_eq]
      exact ⟨h1.2, h4⟩
    · intro p hp hpk
      apply h1.1
      rw [List.mem_filter]
      exact ⟨List.mem_map.2 ⟨p, hp, hpk⟩, hs⟩

theorem linkObject_cons (l : Link) (saved : Option JsonError) (kv : String × JVal)
    (r : List (String × JVal)) :
    linkObject l saved (kv :: r) =
      linkObject (linkMember (l, saved) kv).1 (linkMember (l, saved) kv).2 r := rfl

theorem linkObject_fieldOf (r : List (String × JVal)) :
    ∀ (l : Link) (saved : Option JsonError), isLinkRecord r = true → ∀ g : Field,
      fieldOf (linkObject l saved r).1 g = (r.lookup g.name).getD (fieldOf l g) := by
  induction r with
  | nil => intro l saved _ g; rfl
  | cons kv r ih =>
    intro l saved h g
    obtain ⟨hr, hm⟩ := isLinkRecord_cons kv r h
    rw [linkObject_cons, ih _ _ hr g]
    obtain ⟨k, v⟩ := kv
    simp only [List.lookup_cons]
    by_cases hg : g.name = k
    · have hbeq : (g.name == k) = true := by simp [hg]
      rcases hm with hm | ⟨f, hf, hkf, hw, hk⟩
      · simp only at hm
        rw [← hg, fieldForKey_name] at hm
        cases hm
      · simp only at hf hkf hw hk
        have hnone : r.lookup g.name = none := by
          rw [List.lookup_eq_none_iff]
          intro p hp
          simp only [bne_iff_ne, ne_eq]
          intro hpk
          exact hk p hp (by rw [← hpk, hg])
        rw [hnone, hbeq]
        simp only [Option.getD_none, Option.getD_some]
        have hfg : f = g := by
          rw [← hg, fieldForKey_name] at hf
          exact (Option.some.inj hf).symm
        subst hfg
        simp only [linkMember, fieldForKey_name, hkf]
        rw [storeField_fieldOf l saved f v hw f]
        simp
    · have hbeq : (g.name == k) = false := by simp [hg]
      rw [hbeq]
      simp only
      congr 1
      rcases hm with hm | ⟨f, hf, hkf, hw, _⟩
      · simp only at hm
        simp only [linkMember, hm]
      · simp only at hf hkf hw
        have hne : ¬ g = f := by
          intro hgf
          exact hg (by rw [hgf, hkf])
        simp only [linkMember, hf]
        rw [storeField_fieldOf l saved f v hw g]
        simp [hne]

theorem isLinkRecord_lookup (r : List (String × JVal)) (h : isLinkRecord r = true)
    (g : Field) (v : JVal) (hv : r.lookup g.name = some v) : wellTyped g v = true := by
  induction r with
  | nil => simp at hv
  | cons kv r ih =>
    obtain ⟨hr, hm⟩ := isLinkRecord_cons kv r h
    obtain ⟨k, w⟩ := kv
    simp only [List.lookup_cons] at hv
    by_cases hg : g.name = k
    · have hbeq : (g.name == k) = true := by simp [hg]
      rw [hbeq] at hv
      simp only [Option.some.injEq] at hv
      subst hv
      rcases hm with hm | ⟨f, hf, _, hw, _⟩
      · simp only at hm
        rw [← hg, fieldForKey_name] at hm
        cases hm
      · simp only at hf hw
        rw [← hg, fieldForKey_name] at hf
        cases hf
        exact hw
    · have hbeq : (g.name == k) = false := by simp [hg]
      rw [hbeq] at hv
      exact ih hr hv

theorem fieldOf_recordLink (r : List (String × JVal)) (h : isLinkRecord r = true) (g : Field) :
    fieldOf (recordLink r) g = (r.lookup g.name).getD (fieldOf zeroLink g) := by
  have hw := isLinkRecord_lookup r h g
  cases hl : r.lookup g.name with
  | none =>
    cases g <;> simp only [Field.name] at hl <;>
      simp [fieldOf, recordLink, intAt, strAt, hl, zeroLink]
  | some v =>
    have hv := hw v hl
    cases v with
    | null => simp [wellTyped] at hv
    | bool b => simp [wellTyped] at hv
    | arr xs => simp [wellTyped] at hv
    | obj kvs => simp [wellTyped] at hv
    | str s =>
      cases g <;> simp [wellTyped, Field.isInt] at hv <;> simp only [Field.name] at hl <;>
        simp [fieldOf, recordLink, strAt, hl]
    | num n =>
      cases n with
      | real t => simp [wellTyped] at hv
      | int i =>
        cases g <;> simp [wellTyped, Field.isInt] at hv <;> simp only [Field.name] at hl <;>
          simp [fieldOf, recordLink, intAt, hl]

/-- Decoding a Link record into the zero `Link` gives the `Link` the record
denotes, and saves no error. -/
theorem linkObject_record (r : List (String × JVal)) (h : isLinkRecord r = true) :
    linkObject zeroLink none r = (recordLink r, none) := by
  have h1 : (linkObject zeroLink none r).1 = recordLink r :=
    link_ext_fieldOf fun g => by rw [linkObject_fieldOf r _ _ h g, fieldOf_recordLink r h g]
  have h2 : (linkObject zeroLink none r).2 = none := by
    have hacc : membersAccepted r = true := by
      simp only [isLinkRecord, Bool.and_eq_true, List.all_eq_true] at h
      simp only [membersAccepted, List.all_eq_true]
      intro kv hkv
      have := h.2 kv hkv
      cases hf : fieldForKey linkFields kv.1 with
      | none => rfl
      | some f =>
        rw [hf] at this
        simp only [Bool.and_eq_true, decide_eq_true_eq] at this
        have hw := this.2
        simp only
        cases hv : kv.2 <;> simp [accepts, hv] at hw ⊢ <;> exact hw
    exact (linkObject_accepts zeroLink none r).1 hacc
  exact Prod.ext h1 h2

end records

/-! ## Lists of records, maps and `PopularLinks` -/

section containers

theorem sliceElements_records (recs : List (List (String × JVal)))
    (h : ∀ r ∈ recs, isLinkRecord r = true) :
    sliceElements none [] (recs.map JVal.obj) = (recs.map recordLink, none) := by
  induction recs with
  | nil => rfl
  | cons r recs ih =>
    have hr : isLinkRecord r = true := h r (List.mem_cons_self r recs)
    have hrest := ih fun x hx => h x (List.mem_cons_of_mem r hx)
    simp only [List.map_cons, sliceElements, linkValue, List.headD_nil, List.tail_nil,
      linkObject_record r hr, hrest]

theorem sliceValue_records (recs : List (List (String × JVal)))
    (h : ∀ r ∈ recs, isLinkRecord r = true) :
    sliceValue nilSlice none (.arr (recs.map JVal.obj)) =
      ({ elems := recs.map recordLink, spare := [] }, none) := by
  cases recs with
  | nil => rfl
  | cons r recs =>
    have := sliceElements_records (r :: recs) h
    simp only [List.map_cons] at this
    simp only [sliceValue, sliceArray, List.map_cons, nilSlice, List.append_nil, this,
      List.drop_nil]

theorem LinkMap.index_set_self (m : LinkMap) (key : String) (v : List Link) :
    (m.set key v).index key = v := by
  simp [LinkMap.set, LinkMap.index]

theorem find?_filter_ne {β : Type} (m : List (String × β)) (key key2 : String)
    (h : key2 ≠ key) :
    List.find? (fun a => decide (a.1 = key)) (List.filter (fun e => decide (e.1 ≠ key2)) m) =
      List.find? (fun e => decide (e.1 = key)) m := by
  induction m with
  | nil => rfl
  | cons e m ih =>
    by_cases he : e.1 = key
    · have h2 : e.1 ≠ key2 := by rw [he]; exact fun hk => h hk.symm
      rw [List.filter_cons_of_pos (by simpa using h2),
        List.find?_cons_of_pos _ (by simpa using he),
        List.find?_cons_of_pos _ (by simpa using he)]
    · rw [List.find?_cons_of_neg _ (by simpa using he)]
      by_cases h3 : e.1 = key2
      · rw [List.filter_cons_of_neg (by simpa using h3)]
        exact ih
      · rw [List.filter_cons_of_pos (by simpa using h3),
          List.find?_cons_of_neg _ (by simpa using he)]
        exact ih

theorem LinkMap.index_set_ne (m : LinkMap) (key key2 : String) (v : List Link)
    (h : key2 ≠ key) : (m.set key2 v).index key = m.index key := by
  have h2 : ¬ (key2 = key) := h
  simp only [LinkMap.set, LinkMap.index]
  rw [List.find?_cons_of_neg _ (by simpa using h2), find?_filter_ne m key key2 h]

theorem LinkMap.index_of_not_mem (m : LinkMap) (key : String) (h : ∀ e ∈ m, e.1 ≠ key) :
    m.index key = [] := by
  have : m.find? (fun e => decide (e.1 = key)) = none := by
    rw [List.find?_eq_none]
    intro e he
    simpa using h e he
  simp only [LinkMap.index, this]

theorem mapObject_cons (m : LinkMap) (saved : Option JsonError) (kv : String × JVal)
    (kvs : List (String × JVal)) :
    mapObject m saved (kv :: kvs) =
      mapObject (mapMember (m, saved) kv).1 (mapMember (m, saved) kv).2 kvs := rfl

theorem mapObject_index_of_not_mem (key : String) (kvs : List (String × JVal)) :
    ∀ (m : LinkMap) (saved : Option JsonError), (∀ kv ∈ kvs, kv.1 ≠ key) →
      (mapObject m saved kvs).1.index key = m.index key := by
  induction kvs with
  | nil => intro m saved _; rfl
  | cons kv kvs ih =>
    intro m saved h
    rw [mapObject_cons, ih _ _ fun x hx => h x (List.mem_cons_of_mem kv hx)]
    exact LinkMap.index_set_ne m key kv.1 _ (h kv (List.mem_cons_self kv kvs))

theorem mapObject_append (m : LinkMap) (saved : Option JsonError)
    (pre post : List (String × JVal)) :
    mapObject m saved (pre ++ post) =
      mapObject (mapObject m saved pre).1 (mapObject m saved pre).2 post := by
  simp [mapObject, List.foldl_append]

/-- The map decoded from an object whose last member under `key` is a list of
Link records, all other members having the shape `[]Link`. -/
theorem mapObject_records (key : String) (pre post : List (String × JVal))
    (recs : List (List (String × JVal)))
    (hrecs : ∀ r ∈ recs, isLinkRecord r = true)
    (hothers : ∀ kv ∈ pre ++ post, decodesAsLinks kv.2 = true)
    (hlast : ∀ kv ∈ post, kv.1 ≠ key) :
    (mapObject [] none (pre ++ (key, .arr (recs.map JVal.obj)) :: post)).2 = none ∧
    (mapObject [] none (pre ++ (key, .arr (recs.map JVal.obj)) :: post)).1.index key
      = recs.map recordLink := by
  have hpre : (mapObject [] none pre).2 = none := by
    refine (mapObject_accepts [] none pre).1 ?_
    rw [List.all_eq_true]
    exact fun kv hkv => hothers kv (List.mem_append_left post hkv)
  have hpost : ∀ m, (mapObject m none post).2 = none := by
    intro m
    refine (mapObject_accepts m none post).1 ?_
    rw [List.all_eq_true]
    exact fun kv hkv => hothers kv (List.mem_append_right pre hkv)
  rw [mapObject_append, mapObject_cons, hpre]
  simp only [mapMember, sliceValue_records recs hrecs]
  refine ⟨hpost _, ?_⟩
  rw [mapObject_index_of_not_mem key post _ _ hlast]
  exact LinkMap.index_set_self _ key _

theorem popularObject_cons (p : PopularLinks) (saved : Option JsonError) (kv : String × JVal)
    (kvs : List (String × JVal)) :
    popularObject p saved (kv :: kvs) =
      popularObject (popularMember (p, saved) kv).1 (popularMember (p, saved) kv).2 kvs := rfl

theorem popularMember_of_not_selects (st : PopularLinks × Option JsonError) (kv : String × JVal)
    (h : selectsPopularLinks kv.1 = false) : popularMember st kv = st := by
  unfold selectsPopularLinks at h
  unfold popularMember
  cases hf : fieldForKey popularFields kv.1 with
  | none => rfl
  | some u => rw [hf] at h; cases h

/-- Members whose key does not select `popular_links` are skipped. -/
theorem popularObject_filter (kvs : List (String × JVal)) :
    ∀ (p : PopularLinks) (saved : Option JsonError),
      popularObject p saved kvs =
        popularObject p saved (kvs.filter fun kv => selectsPopularLinks kv.1) := by
  induction kvs with
  | nil => intro p saved; rfl
  | cons kv kvs ih =>
    intro p saved
    cases h : selectsPopularLinks kv.1
    · rw [List.filter_cons_of_neg (by simp [h]), popularObject_cons,
        popularMember_of_not_selects _ kv h]
      exact ih p saved
    · rw [List.filter_cons_of_pos (by simp [h]), popularObject_cons, popularObject_cons]
      exact ih _ _

theorem popularMember_of_selects (p : PopularLinks) (saved : Option JsonError)
    (kv : String × JVal) (h : selectsPopularLinks kv.1 = true) :
    popularMember (p, saved) kv =
      ({ Link := (sliceValue p.Link saved kv.2).1 }, (sliceValue p.Link saved kv.2).2) := by
  unfold selectsPopularLinks at h
  unfold popularMember
  cases hf : fieldForKey popularFields kv.1 with
  | none => rw [hf] at h; cases h
  | some u => rfl

end containers

/-! ## The operations of `Links` -/

section operations

open Links

/-- C1: when the call of `get` answers with an error `e`, each of the six
operations returns exactly `e` together with the zero value of its result: the
empty list for `Expand`, `Info` and `Lookup`, the all-zero `Link` for `Shorten`
and `Clicks`, the `PopularLinks` with an empty list for `Popular`.  The answer
carries no payload in that case, and none is decoded. -/
theorem core_error_returned_unchanged (client : Client) (e : GoError) :
    (∀ urls, client "/expand" [("shortUrl", urls)] = .error e →
      (Expand urls).result client = ([], some e)) ∧
    (∀ urls, client "/info" [("shortUrl", urls)] = .error e →
      (Info urls).result client = ([], some e)) ∧
    (∀ urls, client "/link/lookup" [("url", urls)] = .error e →
      (Lookup urls).result client = ([], some e)) ∧
    (∀ longURL, client "/shorten" [("longUrl", [longURL])] = .error e →
      (Shorten longURL).result client = (zeroLink, some e)) ∧
    (∀ shortURL unit units,
      client "/link/clicks" [("link", [shortURL]), ("unit", [unit]), ("units", [units])]
        = .error e →
      (Clicks shortURL unit units).result client = (zeroLink, some e)) ∧
    (∀ unit units, client "/user/popular_links" [("unit", [unit]), ("units", [units])]
        = .error e →
      (Popular unit units).result client = (zeroPopularLinks, some e)) := by
  refine ⟨?_, ?_, ?_, ?_, ?_, ?_⟩
  · intro urls h; exact req_result_error client _ _ _ e h
  · intro urls h; exact req_result_error client _ _ _ e h
  · intro urls h; exact req_result_error client _ _ _ e h
  · intro longURL h; simp [Shorten, Prog.result, Prog.run, h]
  · intro shortURL unit units h; simp [Clicks, Prog.result, Prog.run, h]
  · intro unit units h; simp [Popular, Prog.result, Prog.run, h]

/-- C1 at a client core that answers every call with the error `403`. -/
theorem core_error_returned_unchanged_witness :
    (Expand ["1RmnUT"]).result (failing (.other "403")) = ([], some (.other "403")) ∧
    (Info ["1RmnUT"]).result (failing (.other "403")) = ([], some (.other "403")) ∧
    (Lookup ["http://google.com"]).result (failing (.other "403"))
      = ([], some (.other "403")) ∧
    (Shorten "http://google.com/").result (failing (.other "403"))
      = (zeroLink, some (.other "403")) ∧
    (Clicks "http://bit.ly/1RmnUT" "day" "7").result (failing (.other "403"))
      = (zeroLink, some (.other "403")) ∧
    (Popular "day" "7").result (failing (.other "403"))
      = (zeroPopularLinks, some (.other "403")) :=
  have h := core_error_returned_unchanged (failing (.other "403")) (.other "403")
  ⟨h.1 _ rfl, h.2.1 _ rfl, h.2.2.1 _ rfl, h.2.2.2.1 _ rfl, h.2.2.2.2.1 _ _ _ rfl,
    h.2.2.2.2.2 _ _ rfl⟩

/-- C2: on a payload with a string under `long_url` followed by a string under
the integer field `new_hash`, `Shorten` and `Clicks` return a decode error
together with a `Link` whose `LongURL` is set: the result returned with the
error is not the zero value. -/
theorem Shorten_Clicks_return_decoded_fields_with_error :
    (Shorten "http://google.com/").result (answering (.json (.obj illTypedRecord)))
      = ({ zeroLink with LongURL := "http://google.com/" },
          some (.json (.UnmarshalTypeError "string" "int"))) ∧
    (Clicks "http://bit.ly/1RmnUT" "day" "7").result (answering (.json (.obj illTypedRecord)))
      = ({ zeroLink with LongURL := "http://google.com/" },
          some (.json (.UnmarshalTypeError "string" "int"))) ∧
    ({ zeroLink with LongURL := "http://google.com/" } : Link) ≠ zeroLink := by
  refine ⟨by decide, by decide, by decide⟩

/-- The list operations and `Popular` return the zero value with every decode
error. -/
theorem req_Popular_zero_on_decode_error (client : Client) (resp : Response) :
    (∀ path params key e, client path params = .ok resp →
      ((req path params key).result client).2 = some e →
      ((req path params key).result client).1 = []) ∧
    (∀ unit units e,
      client "/user/popular_links" [("unit", [unit]), ("units", [units])] = .ok resp →
      ((Popular unit units).result client).2 = some e →
      ((Popular unit units).result client).1 = zeroPopularLinks) := by
  constructor
  · intro path params key e h
    rw [req_result_ok client path params key resp h]
    cases (Unmarshal.linkMap resp.Data []).2 <;> simp
  · intro unit units e h
    rw [Popular_result_ok client unit units resp h]
    cases (Unmarshal.popularLinks resp.Data zeroPopularLinks).2 <;> simp

/-- C3: when the payload decodes, without error, to a mapping that does not
contain the key of the operation (`expand`, `info`, `link_lookup`), the
operation returns the empty list and a nil error. -/
theorem missing_key_gives_empty_list (client : Client) (urls : List String) (resp : Response)
    (m : LinkMap) (hdec : Unmarshal.linkMap resp.Data [] = (m, none)) :
    (client "/expand" [("shortUrl", urls)] = .ok resp → (∀ e ∈ m, e.1 ≠ "expand") →
      (Expand urls).result client = ([], none)) ∧
    (client "/info" [("shortUrl", urls)] = .ok resp → (∀ e ∈ m, e.1 ≠ "info") →
      (Info urls).result client = ([], none)) ∧
    (client "/link/lookup" [("url", urls)] = .ok resp → (∀ e ∈ m, e.1 ≠ "link_lookup") →
      (Lookup urls).result client = ([], none)) := by
  refine ⟨?_, ?_, ?_⟩ <;>
  · intro h hkey
    simp only [Expand, Info, Lookup]
    rw [req_result_ok client _ _ _ resp h, hdec]
    simp only [LinkMap.index_of_not_mem m _ hkey]

/-- C3 at the payloads `{"other":[{}]}`, decoded to a mapping with the one key
`other`, for the three operations. -/
theorem missing_key_gives_empty_list_witness :
    (Expand ["1RmnUT"]).result (answering (.json (.obj [("other", .arr [.obj []])])))
      = ([], none) ∧
    (Info ["1RmnUT"]).result (answering (.json (.obj [("other", .arr [.obj []])])))
      = ([], none) ∧
    (Lookup ["1RmnUT"]).result (answering (.json (.obj [("other", .arr [.obj []])])))
      = ([], none) :=
  have h := missing_key_gives_empty_list (answering (.json (.obj [("other", .arr [.obj []])])))
    ["1RmnUT"] (okResponse (.json (.obj [("other", .arr [.obj []])]))) [("other", [zeroLink])] rfl
  ⟨h.1 rfl (by decide), h.2.1 rfl (by decide), h.2.2 rfl (by decide)⟩

/-- C6: for every list of URLs and every client core, `Expand`, `Info` and
`Lookup` call `get` exactly once: `Expand` with path `/expand` and the one
parameter name `shortUrl`, `Info` with `/info` and `shortUrl`, `Lookup` with
`/link/lookup` and `url`; the values under the name are the URLs of the caller,
in their order. -/
theorem list_operations_call_get_once (client : Client) (urls : List String) :
    (Expand urls).calls client = [{ path := "/expand", params := [("shortUrl", urls)] }] ∧
    (Info urls).calls client = [{ path := "/info", params := [("shortUrl", urls)] }] ∧
    (Lookup urls).calls client = [{ path := "/link/lookup", params := [("url", urls)] }] :=
  ⟨req_calls client _ _ _, req_calls client _ _ _, req_calls client _ _ _⟩

/-- C7: for all string arguments and every client core, `Shorten`, `Clicks` and
`Popular` call `get` exactly once: `Shorten` with path `/shorten` and
`longUrl: [longURL]`; `Clicks` with `/link/clicks` and `link: [shortURL]`,
`unit: [unit]`, `units: [units]`; `Popular` with `/user/popular_links` and
`unit: [unit]`, `units: [units]`. -/
theorem direct_operations_call_get_once (client : Client) (a b c : String) :
    (Shorten a).calls client = [{ path := "/shorten", params := [("longUrl", [a])] }] ∧
    (Clicks a b c).calls client =
      [{ path := "/link/clicks", params := [("link", [a]), ("unit", [b]), ("units", [c])] }] ∧
    (Popular a b).calls client =
      [{ path := "/user/popular_links", params := [("unit", [a]), ("units", [b])] }] := by
  refine ⟨?_, ?_, ?_⟩
  · simp only [Shorten, Prog.calls, Prog.run]
    cases client "/shorten" [("longUrl", [a])] <;> rfl
  · simp only [Clicks, Prog.calls, Prog.run]
    cases client "/link/clicks" [("link", [a]), ("unit", [b]), ("units", [c])] <;> rfl
  · simp only [Popular, Prog.calls, Prog.run]
    cases client "/user/popular_links" [("unit", [a]), ("units", [b])] with
    | error e => rfl
    | ok resp =>
      simp only []
      cases (Unmarshal.popularLinks resp.Data zeroPopularLinks).2 <;> rfl

theorem req_records (client : Client) (path : String) (params : Values) (key : String)
    (resp : Response) (pre post : List (String × JVal)) (recs : List (List (String × JVal)))
    (hrecs : ∀ r ∈ recs, isLinkRecord r = true)
    (hothers : ∀ kv ∈ pre ++ post, decodesAsLinks kv.2 = true)
    (hvalid : checkValid resp.Data = none)
    (h : client path params = .ok resp)
    (hdata : resp.Data = .json (.obj (pre ++ (key, .arr (recs.map JVal.obj)) :: post)))
    (hlast : ∀ kv ∈ post, kv.1 ≠ key) :
    (req path params key).result client = (recs.map recordLink, none) := by
  obtain ⟨h1, h2⟩ := mapObject_records key pre post recs hrecs hothers hlast
  rw [hdata] at hvalid
  rw [req_result_ok client path params key resp h, hdata,
    Unmarshal.linkMap_of_valid _ _ hvalid]
  simp only [mapValue, h1, h2]

/-- C4, as stated, fails: the payload `{"expand":[{"LONG_URL":
"http://google.com/"}]}` maps `expand` to a list of one record whose members
are all strings and which has no member under the key `long_url`, yet the
`Link` that `Expand` returns has `LongURL` set, not the zero value the record
denotes. -/
theorem Expand_reads_case_variant_key :
    (upperCaseRecord.lookup "long_url").isNone = true ∧
    recordLink upperCaseRecord = zeroLink ∧
    (Expand ["1RmnUT"]).result
        (answering (.json (.obj [("expand", .arr [.obj upperCaseRecord])])))
      = ([{ zeroLink with LongURL := "http://google.com/" }], none) ∧
    ({ zeroLink with LongURL := "http://google.com/" } : Link) ≠ recordLink upperCaseRecord := by
  refine ⟨by decide, by decide, by decide, by decide⟩

/-- C4, amended: let the payload be a JSON object, nested no deeper than
10000, whose last member under the key of the operation (`expand`, `info`,
`link_lookup`) is an array of `n` Link records and whose other members have
the shape of a list of `Link`.  A Link record is an object in which every key
that matches a field of `Link`, exactly or up to letter case, is spelled
exactly as the JSON name of the field, occurs once and holds a value of the
type of the field (a string, or an integer literal in the range of `int`);
members under other keys are ignored.  Then the operation returns a nil error
and the `n` Links the records denote, in the same order: each field holds the
value the record stores under the JSON key of the field, and is zero when the
record has no such key. -/
theorem list_payload_round_trip (client : Client) (urls : List String) (resp : Response)
    (pre post : List (String × JVal)) (recs : List (List (String × JVal)))
    (hvalid : checkValid resp.Data = none)
    (hrecs : ∀ r ∈ recs, isLinkRecord r = true)
    (hothers : ∀ kv ∈ pre ++ post, decodesAsLinks kv.2 = true) :
    (client "/expand" [("shortUrl", urls)] = .ok resp →
      resp.Data = .json (.obj (pre ++ ("expand", .arr (recs.map JVal.obj)) :: post)) →
      (∀ kv ∈ post, kv.1 ≠ "expand") →
      (Expand urls).result client = (recs.map recordLink, none)) ∧
    (client "/info" [("shortUrl", urls)] = .ok resp →
      resp.Data = .json (.obj (pre ++ ("info", .arr (recs.map JVal.obj)) :: post)) →
      (∀ kv ∈ post, kv.1 ≠ "info") →
      (Info urls).result client = (recs.map recordLink, none)) ∧
    (client "/link/lookup" [("url", urls)] = .ok resp →
      resp.Data = .json (.obj (pre ++ ("link_lookup", .arr (recs.map JVal.obj)) :: post)) →
      (∀ kv ∈ post, kv.1 ≠ "link_lookup") →
      (Lookup urls).result client = (recs.map recordLink, none)) :=
  ⟨fun h hdata hlast =>
      req_records client _ _ _ resp pre post recs hrecs hothers hvalid h hdata hlast,
   fun h hdata hlast =>
      req_records client _ _ _ resp pre post recs hrecs hothers hvalid h hdata hlast,
   fun h hdata hlast =>
      req_records client _ _ _ resp pre post recs hrecs hothers hvalid h hdata hlast⟩

/-- C4, amended, at the scenario of the specification: `Expand("1RmnUT")` on
the payload `{"expand":[{"global_hash":"1RmnUT","long_url":"http://google.com",
"short_url":"http://bit.ly/1RmnUT"}]}` returns one `Link` with `GlobalHash`,
`LongURL` and `ShortURL` set and every other field zero; likewise `Info` and
`Lookup` on the same record under `info` and `link_lookup`. -/
theorem list_payload_round_trip_witness :
    (Expand ["1RmnUT"]).result
        (answering (.json (.obj [("expand", .arr [.obj expandRecord])])))
      = ([recordLink expandRecord], none) ∧
    (Info ["1RmnUT"]).result
        (answering (.json (.obj [("info", .arr [.obj expandRecord])])))
      = ([recordLink expandRecord], none) ∧
    (Lookup ["1RmnUT"]).result
        (answering (.json (.obj [("link_lookup", .arr [.obj expandRecord])])))
      = ([recordLink expandRecord], none) ∧
    recordLink expandRecord =
      { zeroLink with GlobalHash := "1RmnUT", LongURL := "http://google.com",
                      ShortURL := "http://bit.ly/1RmnUT" } :=
  ⟨(list_payload_round_trip
      (answering (.json (.obj [("expand", .arr [.obj expandRecord])]))) ["1RmnUT"]
      (okResponse (.json (.obj [("expand", .arr [.obj expandRecord])]))) [] [] [expandRecord]
      (by decide) (by decide) (by simp)).1 rfl rfl (by simp),
   (list_payload_round_trip
      (answering (.json (.obj [("info", .arr [.obj expandRecord])]))) ["1RmnUT"]
      (okResponse (.json (.obj [("info", .arr [.obj expandRecord])]))) [] [] [expandRecord]
      (by decide) (by decide) (by simp)).2.1 rfl rfl (by simp),
   (list_payload_round_trip
      (answering (.json (.obj [("link_lookup", .arr [.obj expandRecord])]))) ["1RmnUT"]
      (okResponse (.json (.obj [("link_lookup", .arr [.obj expandRecord])]))) [] []
      [expandRecord] (by decide) (by decide) (by simp)).2.2 rfl rfl (by simp),
   by decide⟩

/-- C5, as stated, fails: the payload `{"LONG_URL":"http://google.com/"}` is an
object with one string member and no member under the key `long_url`, yet
`Shorten` returns a `Link` whose `LongURL` is that string, not the zero value
the record denotes. -/
theorem Shorten_reads_case_variant_key :
    (upperCaseRecord.lookup "long_url").isNone = true ∧
    recordLink upperCaseRecord = zeroLink ∧
    (Shorten "http://google.com/").result (answering (.json (.obj upperCaseRecord)))
      = ({ zeroLink with LongURL := "http://google.com/" }, none) ∧
    ({ zeroLink with LongURL := "http://google.com/" } : Link) ≠ recordLink upperCaseRecord := by
  refine ⟨by decide, by decide, by decide, by decide⟩

/-- C5, amended: when the payload is nested no deeper than 10000 and is a
Link record (an object in which every key that matches a field of `Link`,
exactly or up to letter case, is spelled exactly as the JSON name of the
field, occurs once and holds a value of the type of the field: a string, or an
integer literal in the range of `int`), `Shorten` returns a nil error and a
`Link` in which each field holds the value stored under its JSON key, fields
without a key being zero.  Members whose key matches no field are ignored. -/
theorem Shorten_decodes_record (client : Client) (longURL : String) (resp : Response)
    (r : List (String × JVal))
    (h : client "/shorten" [("longUrl", [longURL])] = .ok resp)
    (hdata : resp.Data = .json (.obj r)) (hvalid : checkValid resp.Data = none)
    (hr : isLinkRecord r = true) :
    (Shorten longURL).result client = (recordLink r, none) := by
  rw [hdata] at hvalid
  rw [Shorten_result_ok client longURL resp h, hdata, Unmarshal.link_of_valid _ _ hvalid]
  simp only [linkValue, linkObject_record r hr, Option.map_none']

/-- C5, amended, at the scenario of the specification:
`Shorten("http://google.com/")` on the payload
`{"long_url":"http://google.com/","hash":"ze6poY","url":"http://bit.ly/ze6poY"}`. -/
theorem Shorten_decodes_record_witness :
    (Shorten "http://google.com/").result (answering (.json (.obj shortenRecord)))
      = (recordLink shortenRecord, none) ∧
    recordLink shortenRecord =
      { zeroLink with LongURL := "http://google.com/", Hash := "ze6poY",
                      URL := "http://bit.ly/ze6poY" } :=
  ⟨Shorten_decodes_record (answering (.json (.obj shortenRecord))) "http://google.com/"
      (okResponse (.json (.obj shortenRecord))) shortenRecord rfl rfl (by decide)
      (by decide),
   by decide⟩

/-- C8, as stated, fails: the payload `{"POPULAR_LINKS":[{"title":"Google",
"clicks":42}]}` has no member under the key `popular_links`, yet `Popular`
returns a list of one `Link`, not the empty list. -/
theorem Popular_reads_case_variant_key :
    (List.lookup "popular_links"
        [("POPULAR_LINKS", JVal.arr [.obj popularRecord])]).isNone = true ∧
    (Popular "day" "7").result
        (answering (.json (.obj [("POPULAR_LINKS", .arr [.obj popularRecord])])))
      = ({ Link := { elems := [{ zeroLink with Title := "Google", ClicksTotal := 42 }],
                     spare := [] } }, none) := by
  refine ⟨by decide, by decide⟩

/-- C8, amended: let the payload be a JSON object nested no deeper than
10000.  When it has a member under the key `popular_links` that holds an array
of `n` Link records, and no other member has a key equal to `popular_links` up
to letter case, `Popular` returns a nil error and a `PopularLinks` whose list
holds the `n` Links the records denote, in the same order.  A Link record is
an object in which every key that matches a field of `Link`, exactly or up to
letter case, is spelled exactly as the JSON name of the field, occurs once and
holds a value of the type of the field; the `Link` it denotes holds under each
field the value stored under the JSON key of the field, and zero when there is
no such key.  When no member of the payload has a key equal to `popular_links`
up to letter case, `Popular` returns a nil error and a `PopularLinks` with an
empty list. -/
theorem Popular_decodes_records (client : Client) (unit units : String) (resp : Response)
    (kvs : List (String × JVal))
    (h : client "/user/popular_links" [("unit", [unit]), ("units", [units])] = .ok resp)
    (hdata : resp.Data = .json (.obj kvs)) (hvalid : checkValid resp.Data = none) :
    (∀ (pre post : List (String × JVal)) (recs : List (List (String × JVal))),
      kvs = pre ++ ("popular_links", .arr (recs.map JVal.obj)) :: post →
      (∀ kv ∈ pre ++ post, selectsPopularLinks kv.1 = false) →
      (∀ r ∈ recs, isLinkRecord r = true) →
      (Popular unit units).result client
        = ({ Link := { elems := recs.map recordLink, spare := [] } }, none)) ∧
    ((∀ kv ∈ kvs, selectsPopularLinks kv.1 = false) →
      (Popular unit units).result client = (zeroPopularLinks, none)) := by
  rw [hdata] at hvalid
  constructor
  · intro pre post recs hkvs hothers hrecs
    have hself : selectsPopularLinks "popular_links" = true := by decide
    have hfilter : (kvs.filter fun kv => selectsPopularLinks kv.1)
        = [("popular_links", .arr (recs.map JVal.obj))] := by
      have hpre : pre.filter (fun kv => selectsPopularLinks kv.1) = [] :=
        List.filter_eq_nil_iff.2 fun kv hkv => by
          simp [hothers kv (List.mem_append_left post hkv)]
      have hpost : post.filter (fun kv => selectsPopularLinks kv.1) = [] :=
        List.filter_eq_nil_iff.2 fun kv hkv => by
          simp [hothers kv (List.mem_append_right pre hkv)]
      rw [hkvs, List.filter_append, hpre]
      simp only [List.filter_cons, hself, hpost, if_true, List.nil_append]
    have hobj : popularObject zeroPopularLinks none kvs
        = ({ Link := { elems := recs.map recordLink, spare := [] } }, none) := by
      rw [popularObject_filter, hfilter, popularObject_cons,
        popularMember_of_selects _ _ _ hself]
      simp only [zeroPopularLinks, sliceValue_records recs hrecs]
      rfl
    rw [Popular_result_ok client unit units resp h, hdata,
      Unmarshal.popularLinks_of_valid _ _ hvalid]
    simp only [popularValue, hobj]
  · intro hnone
    have hfilter : (kvs.filter fun kv => selectsPopularLinks kv.1) = [] :=
      List.filter_eq_nil_iff.2 fun kv hkv => by simp [hnone kv hkv]
    have hobj : popularObject zeroPopularLinks none kvs = (zeroPopularLinks, none) := by
      rw [popularObject_filter, hfilter]
      rfl
    rw [Popular_result_ok client unit units resp h, hdata,
      Unmarshal.popularLinks_of_valid _ _ hvalid]
    simp only [popularValue, hobj]

/-- C8, amended, at the payloads `{"status":"ok","popular_links":[{"title":
"Google","clicks":42}]}` and `{"status":"ok"}`. -/
theorem Popular_decodes_records_witness :
    (Popular "day" "7").result
        (answering (.json (.obj [("status", .str "ok"),
          ("popular_links", .arr [.obj popularRecord])])))
      = ({ Link := { elems := [{ zeroLink with Title := "Google", ClicksTotal := 42 }],
                     spare := [] } }, none) ∧
    (Popular "day" "7").result (answering (.json (.obj [("status", .str "ok")])))
      = (zeroPopularLinks, none) :=
  ⟨(Popular_decodes_records
      (answering (.json (.obj [("status", .str "ok"),
        ("popular_links", .arr [.obj popularRecord])]))) "day" "7"
      (okResponse (.json (.obj [("status", .str "ok"),
        ("popular_links", .arr [.obj popularRecord])]))) _ rfl rfl (by decide)).1
      [("status", .str "ok")] [] [popularRecord] rfl (by decide) (by decide),
   (Popular_decodes_records (answering (.json (.obj [("status", .str "ok")]))) "day" "7"
      (okResponse (.json (.obj [("status", .str "ok")]))) _ rfl rfl (by decide)).2
      (by decide)⟩

theorem req_error (client : Client) (path : String) (params : Values) (key : String)
    (resp : Response) (h : client path params = .ok resp) :
    ((req path params key).result client).2 =
        (Unmarshal.linkMap resp.Data []).2.map GoError.json ∧
      (((req path params key).result client).2 = none ↔
        resp.Data.decodesAsLinkMap = true) := by
  have h1 : ((req path params key).result client).2 =
      (Unmarshal.linkMap resp.Data []).2.map GoError.json := by
    rw [req_result_ok client path params key resp h]
    cases (Unmarshal.linkMap resp.Data []).2 <;> rfl
  refine ⟨h1, ?_⟩
  rw [h1, Option.map_eq_none', Unmarshal.linkMap_eq_none]

theorem direct_error (data : RawMessage) :
    ((Unmarshal.link data zeroLink).2.map GoError.json = none ↔ data.decodesAsLink = true) := by
  rw [Option.map_eq_none', Unmarshal.link_eq_none]

/-- On a payload that is a Link record but is nested deeper than the limit of
the validity scan, `Shorten` returns the syntax error and the zero `Link`. -/
theorem Shorten_rejects_deep_nesting (client : Client) (longURL : String) (resp : Response)
    (n : Nat) (hn : maxNestingDepth ≤ n)
    (h : client "/shorten" [("longUrl", [longURL])] = .ok resp)
    (hdata : resp.Data = .json (.obj (deepRecord n))) :
    isLinkRecord (deepRecord n) = true ∧
      (Shorten longURL).result client = (zeroLink, some (.json .SyntaxError)) := by
  refine ⟨isLinkRecord_deepRecord n, ?_⟩
  have hd : ¬ (JVal.obj (deepRecord n)).depth ≤ maxNestingDepth := by
    rw [depth_deepRecord]; omega
  rw [Shorten_result_ok client longURL resp h, hdata]
  simp only [Unmarshal.link, hd, if_false, Option.map_some']

/-- C9: after a successful `get`, the error each operation returns is the
error of `json.Unmarshal` on the payload, as a decode error, and it is nil
exactly when the payload decodes into the target shape of the operation: when
it is a JSON text, nested no deeper than the limit of the decoder, that
denotes a mapping from strings to lists of `Link` for `Expand`, `Info` and
`Lookup`, a `Link` for `Shorten` and `Clicks`, a `PopularLinks` for `Popular`.
Every payload, the malformed one included, gives a result. -/
theorem decode_error_iff_not_target_shape (client : Client) (resp : Response) :
    (∀ urls, client "/expand" [("shortUrl", urls)] = .ok resp →
      ((Expand urls).result client).2 = (Unmarshal.linkMap resp.Data []).2.map GoError.json ∧
      (((Expand urls).result client).2 = none ↔ resp.Data.decodesAsLinkMap = true)) ∧
    (∀ urls, client "/info" [("shortUrl", urls)] = .ok resp →
      ((Info urls).result client).2 = (Unmarshal.linkMap resp.Data []).2.map GoError.json ∧
      (((Info urls).result client).2 = none ↔ resp.Data.decodesAsLinkMap = true)) ∧
    (∀ urls, client "/link/lookup" [("url", urls)] = .ok resp →
      ((Lookup urls).result client).2 = (Unmarshal.linkMap resp.Data []).2.map GoError.json ∧
      (((Lookup urls).result client).2 = none ↔ resp.Data.decodesAsLinkMap = true)) ∧
    (∀ longURL, client "/shorten" [("longUrl", [longURL])] = .ok resp →
      ((Shorten longURL).result client).2
        = (Unmarshal.link resp.Data zeroLink).2.map GoError.json ∧
      (((Shorten longURL).result client).2 = none ↔ resp.Data.decodesAsLink = true)) ∧
    (∀ shortURL unit units,
      client "/link/clicks" [("link", [shortURL]), ("unit", [unit]), ("units", [units])]
        = .ok resp →
      ((Clicks shortURL unit units).result client).2
        = (Unmarshal.link resp.Data zeroLink).2.map GoError.json ∧
      (((Clicks shortURL unit units).result client).2 = none ↔
        resp.Data.decodesAsLink = true)) ∧
    (∀ unit units, client "/user/popular_links" [("unit", [unit]), ("units", [units])]
        = .ok resp →
      ((Popular unit units).result client).2
        = (Unmarshal.popularLinks resp.Data zeroPopularLinks).2.map GoError.json ∧
      (((Popular unit units).result client).2 = none ↔
        resp.Data.decodesAsPopularLinks = true)) := by
  refine ⟨?_, ?_, ?_, ?_, ?_, ?_⟩
  · intro urls h; exact req_error client _ _ _ resp h
  · intro urls h; exact req_error client _ _ _ resp h
  · intro urls h; exact req_error client _ _ _ resp h
  · intro longURL h
    rw [Shorten_result_ok client longURL resp h]
    exact ⟨rfl, direct_error resp.Data⟩
  · intro shortURL unit units h
    rw [Clicks_result_ok client shortURL unit units resp h]
    exact ⟨rfl, direct_error resp.Data⟩
  · intro unit units h
    have h1 : ((Popular unit units).result client).2 =
        (Unmarshal.popularLinks resp.Data zeroPopularLinks).2.map GoError.json := by
      rw [Popular_result_ok client unit units resp h]
      cases (Unmarshal.popularLinks resp.Data zeroPopularLinks).2 <;> rfl
    refine ⟨h1, ?_⟩
    rw [h1, Option.map_eq_none', Unmarshal.popularLinks_eq_none]

/-- C9 at four payloads.  A malformed payload: each operation returns the
syntax error of the decoder.  Payloads of the target shape (a record with
arrays nested under an ignored key for `Shorten` and `Clicks`, a list of
records under `expand` for `Expand`, under `popular_links` for `Popular`): the
error is nil.  A payload with a string under the integer field `new_hash`, and
a payload nested 10001 deep: the error of `Shorten` is not nil. -/
theorem decode_error_iff_not_target_shape_witness :
    (((Expand ["1RmnUT"]).result (answering .malformed)).2 = some (.json .SyntaxError) ∧
     ((Info ["1RmnUT"]).result (answering .malformed)).2 = some (.json .SyntaxError) ∧
     ((Lookup ["1RmnUT"]).result (answering .malformed)).2 = some (.json .SyntaxError) ∧
     ((Shorten "http://google.com/").result (answering .malformed)).2
       = some (.json .SyntaxError) ∧
     ((Clicks "http://bit.ly/1RmnUT" "day" "7").result (answering .malformed)).2
       = some (.json .SyntaxError) ∧
     ((Popular "day" "7").result (answering .malformed)).2 = some (.json .SyntaxError)) ∧
    (((Shorten "http://google.com/").result
        (answering (.json (.obj nestedExtraRecord)))).2 = none ∧
     ((Clicks "http://bit.ly/1RmnUT" "day" "7").result
        (answering (.json (.obj nestedExtraRecord)))).2 = none ∧
     ((Expand ["1RmnUT"]).result
        (answering (.json (.obj [("expand", .arr [.obj expandRecord])])))).2 = none ∧
     ((Popular "day" "7").result
        (answering (.json (.obj [("popular_links", .arr [.obj popularRecord])])))).2
       = none) ∧
    ((Shorten "http://google.com/").result (answering (.json (.obj illTypedRecord)))).2
      ≠ none ∧
    ((Shorten "http://google.com/").result (answering (.json (.obj (deepRecord 10000))))).2
      ≠ none :=
  have h := decode_error_iff_not_target_shape (answering .malformed) (okResponse .malformed)
  have hrec := decode_error_iff_not_target_shape
    (answering (.json (.obj nestedExtraRecord))) (okResponse (.json (.obj nestedExtraRecord)))
  have hexp := decode_error_iff_not_target_shape
    (answering (.json (.obj [("expand", .arr [.obj expandRecord])])))
    (okResponse (.json (.obj [("expand", .arr [.obj expandRecord])])))
  have hpop := decode_error_iff_not_target_shape
    (answering (.json (.obj [("popular_links", .arr [.obj popularRecord])])))
    (okResponse (.json (.obj [("popular_links", .arr [.obj popularRecord])])))
  have hill := decode_error_iff_not_target_shape
    (answering (.json (.obj illTypedRecord))) (okResponse (.json (.obj illTypedRecord)))
  have hdeep := decode_error_iff_not_target_shape
    (answering (.json (.obj (deepRecord 10000))))
    (okResponse (.json (.obj (deepRecord 10000))))
  have hdeepShape :
      (okResponse (.json (.obj (deepRecord 10000)))).Data.decodesAsLink = false := by
    have hd : decide (10000 + 1 ≤ maxNestingDepth) = false := by decide
    simp only [okResponse, RawMessage.decodesAsLink, JVal.withinDepth, depth_deepRecord, hd,
      Bool.false_and]
  ⟨⟨(h.1 _ rfl).1, (h.2.1 _ rfl).1, (h.2.2.1 _ rfl).1, (h.2.2.2.1 _ rfl).1,
      (h.2.2.2.2.1 _ _ _ rfl).1, (h.2.2.2.2.2 _ _ rfl).1⟩,
   ⟨(hrec.2.2.2.1 _ rfl).2.2 (by decide), (hrec.2.2.2.2.1 _ _ _ rfl).2.2 (by decide),
      (hexp.1 _ rfl).2.2 (by decide), (hpop.2.2.2.2.2 _ _ rfl).2.2 (by decide)⟩,
   fun hnone => absurd ((hill.2.2.2.1 _ rfl).2.1 hnone) (by decide),
   fun hnone => absurd ((hdeep.2.2.2.1 _ rfl).2.1 hnone) (by rw [hdeepShape]; decide)⟩

/-- C10, as stated, fails: in the payload `{"expand":[{...}],"other":null}` the
value under `other` is not a list of Link records, yet `Expand` returns a nil
error and the list under `expand`. -/
theorem Expand_accepts_null_under_other_key :
    (Expand ["1RmnUT"]).result
        (answering (.json (.obj [("expand", .arr [.obj expandRecord]), ("other", .null)])))
      = ([{ zeroLink with GlobalHash := "1RmnUT", LongURL := "http://google.com",
                          ShortURL := "http://bit.ly/1RmnUT" }], none) := by
  decide

theorem req_ill_shaped_member (client : Client) (path : String) (params : Values)
    (key : String) (resp : Response) (kvs : List (String × JVal))
    (hbad : ∃ kv ∈ kvs, decodesAsLinks kv.2 = false)
    (h : client path params = .ok resp) (hdata : resp.Data = .json (.obj kvs)) :
    ∃ e, (req path params key).result client = ([], some (.json e)) := by
  have hshape : resp.Data.decodesAsLinkMap = false := by
    obtain ⟨kv, hkv, hv⟩ := hbad
    rw [hdata]
    have hall : (kvs.all fun kv => decodesAsLinks kv.2) = false := by
      rw [List.all_eq_false]
      exact ⟨kv, hkv, by simp [hv]⟩
    simp only [RawMessage.decodesAsLinkMap, decodesAsLinkMap, hall, Bool.and_false]
  rw [req_result_ok client path params key resp h]
  cases herr : (Unmarshal.linkMap resp.Data []).2 with
  | some e => exact ⟨e, rfl⟩
  | none =>
    rw [(Unmarshal.linkMap_eq_none resp.Data []).1 herr] at hshape
    cases hshape

/-- C10, amended: the whole payload is decoded before the key is extracted, so
when the payload is an object with a member, under any key, whose value does
not have the shape of a list of `Link` (a value that is neither `null` nor an
array whose elements are `null` or objects with accepted members), each of
`Expand`, `Info` and `Lookup` returns a decode error and the empty list, also
when its own key holds a well-formed list. -/
theorem ill_shaped_member_fails_list_operations (client : Client) (urls : List String)
    (resp : Response) (kvs : List (String × JVal))
    (hbad : ∃ kv ∈ kvs, decodesAsLinks kv.2 = false) (hdata : resp.Data = .json (.obj kvs)) :
    (client "/expand" [("shortUrl", urls)] = .ok resp →
      ∃ e, (Expand urls).result client = ([], some (.json e))) ∧
    (client "/info" [("shortUrl", urls)] = .ok resp →
      ∃ e, (Info urls).result client = ([], some (.json e))) ∧
    (client "/link/lookup" [("url", urls)] = .ok resp →
      ∃ e, (Lookup urls).result client = ([], some (.json e))) :=
  ⟨fun h => req_ill_shaped_member client _ _ _ resp kvs hbad h hdata,
   fun h => req_ill_shaped_member client _ _ _ resp kvs hbad h hdata,
   fun h => req_ill_shaped_member client _ _ _ resp kvs hbad h hdata⟩

/-- C10, amended, at the payload `{"expand":[{...}],"info":[{...}],
"link_lookup":[{...}],"other":"x"}`: the lists under the keys of the three
operations are well formed, the string under `other` makes each of them
fail. -/
theorem ill_shaped_member_fails_list_operations_witness :
    (∃ e, (Expand ["1RmnUT"]).result (answering (.json (.obj illShapedPayload)))
      = ([], some (.json e))) ∧
    (∃ e, (Info ["1RmnUT"]).result (answering (.json (.obj illShapedPayload)))
      = ([], some (.json e))) ∧
    (∃ e, (Lookup ["1RmnUT"]).result (answering (.json (.obj illShapedPayload)))
      = ([], some (.json e))) :=
  have h := ill_shaped_member_fails_list_operations
    (answering (.json (.obj illShapedPayload))) ["1RmnUT"]
    (okResponse (.json (.obj illShapedPayload))) illShapedPayload
    ⟨("other", .str "x"), by simp [illShapedPayload], rfl⟩ rfl
  ⟨h.1 rfl, h.2.1 rfl, h.2.2 rfl⟩

end operations

end Bitly
